import Mathlib

/-!
Verification of the pseudonymization engine of the `pseudo_pas` repository
(`src/pseudonym-service/app/services/pseudonymization.py` and related files).

Texts are modelled as lists of characters.  The Redis session cache is an
association list of string keys (newest entry first, so an insert shadows an
older entry exactly like a Redis `SET`); TTL arguments are dropped because the
model has no clock.  The Vault transit engine (`vault_client.encrypt/decrypt`),
the spaCy model (`nlp`) and the uuid4 hex source used by
`generate_pseudonym` are external collaborators and enter as parameters:

* `KS` carries `enc`/`dec` functions which may fail (the Python functions
  re-raise any `hvac` failure);
* `nlp : Text → List EntSp` stands for the entity list returned by the spaCy
  model on a given (already normalised) text;
* `toks : Nat → Text` is the stream of values of
  `str(uuid.uuid4())[:8].upper()`, one per draw.

Regular-expression matching is embedded by hand for exactly the patterns the
source uses.  Python character predicates (`\w`, `\s`, `str.isupper`,
`str.title`, case-insensitive matching) are modelled on the ASCII range; all
concrete inputs evaluated below stay inside that range.
-/

set_option maxRecDepth 10000

namespace PseudoPas

abbrev Text := List Char
abbrev Cache := List (Text × Text)

/-- Python regex word character `\w` over the ASCII range: `[A-Za-z0-9_]`. -/
def isWordChar (c : Char) : Bool :=
  c.isAlpha || c.isDigit || c == '_'

/-- Python whitespace class `\s` over the ASCII range. -/
def isPyWS (c : Char) : Bool :=
  c == ' ' || c == '\t' || c == '\n' || c == '\r' || c == '\x0b' || c == '\x0c'

/-- A regex word boundary `\b` between a previous character (`none` at the
start of the text) and a next character (`none` at the end): exactly one of
the two sides is a word character. -/
def isBoundary (prev next : Option Char) : Bool :=
  (match prev with | none => false | some c => isWordChar c) !=
  (match next with | none => false | some c => isWordChar c)

/-- ASCII case-insensitive character comparison (re.IGNORECASE). -/
def ciEq (a b : Char) : Bool := a.toLower == b.toLower

/-- Match a literal word case-insensitively; return the rest of the input. -/
def ciWord : Text → Text → Option Text
  | [], s => some s
  | _ :: _, [] => none
  | p :: ps, c :: cs => if ciEq p c then ciWord ps cs else none

/-- Does `s` start (case-insensitively) with `pat`? -/
def ciStarts (pat s : Text) : Bool := (ciWord pat s).isSome

/-- `\s+`: at least one whitespace character, consumed greedily. -/
def wsPlus : Text → Option Text
  | [] => none
  | c :: cs => if isPyWS c then some (cs.dropWhile isPyWS) else none

/-- `\s*`: any run of whitespace, consumed greedily. -/
def wsStar (s : Text) : Text := s.dropWhile isPyWS

/-- Python `str.strip()` (whitespace strip at both ends). -/
def stripWS (s : Text) : Text :=
  ((s.dropWhile isPyWS).reverse.dropWhile isPyWS).reverse

/-- Python `str.strip(chars)` for an explicit character set. -/
def stripChars (junk : List Char) (s : Text) : Text :=
  ((s.dropWhile (fun c => junk.contains c)).reverse.dropWhile
    (fun c => junk.contains c)).reverse

/-- Replace every whitespace run by a single blank, as `re.sub(r'\s+', ' ', s)`
does (no stripping at the ends). -/
def collapseWS : Nat → Text → Text
  | 0, s => s
  | _ + 1, [] => []
  | fuel + 1, c :: rest =>
    if isPyWS c then ' ' :: collapseWS fuel (rest.dropWhile isPyWS)
    else c :: collapseWS fuel rest

/-- `normalizar_espacios`: `re.sub(r'\s+', ' ', texto.strip())`. -/
def normalizarEspacios (s : Text) : Text :=
  collapseWS (s.length + 1) (stripWS s)

/-- Python `str.split()`: split on whitespace runs, dropping empty pieces. -/
def splitWS : Nat → Text → List Text
  | 0, _ => []
  | _ + 1, [] => []
  | fuel + 1, c :: rest =>
    if isPyWS c then splitWS fuel (rest.dropWhile isPyWS)
    else (c :: rest.takeWhile (fun d => !isPyWS d)) ::
      splitWS fuel ((rest.dropWhile (fun d => !isPyWS d)).dropWhile isPyWS)

def palabrasDe (s : Text) : List Text := splitWS (s.length + 1) s

/-- Python `' '.join(words)`. -/
def joinSpace : List Text → Text
  | [] => []
  | [w] => w
  | w :: rest => w ++ ' ' :: joinSpace rest

/-- Python substring test `pat in s` (contiguous infix; empty pattern holds). -/
def containsSub (pat : Text) : Text → Bool
  | [] => pat.isEmpty
  | c :: rest => pat.isPrefixOf (c :: rest) || containsSub pat rest

def lowerT (s : Text) : Text := s.map Char.toLower
def upperT (s : Text) : Text := s.map Char.toUpper

/-- Python `str.replace(pat, rep)`: global, non-overlapping, left to right.
Fueled with one unit per produced position. -/
def replaceAllGo (pat rep : Text) : Nat → Text → Text
  | 0, s => s
  | _ + 1, [] => []
  | fuel + 1, c :: rest =>
    if pat.isPrefixOf (c :: rest) then
      rep ++ replaceAllGo pat rep fuel (List.drop pat.length (c :: rest))
    else c :: replaceAllGo pat rep fuel rest

def replaceAll (pat rep s : Text) : Text := replaceAllGo pat rep (s.length + 1) s

/-! ### Layer-1 pattern matchers (`PATTERNS` in pseudonymization.py)

Each matcher receives the character preceding the current position (for `\b`)
and the current suffix, and returns the length of the match, if any.  A
generic scanner mirrors `re.finditer`: leftmost, non-overlapping, resuming
after each match. -/

/-- Case-sensitive literal match; returns the rest of the input. -/
def litWord : Text → Text → Option Text
  | [], s => some s
  | _ :: _, [] => none
  | p :: ps, c :: cs => if p == c then litWord ps cs else none

/-- Greedy run of `run`-prefix lengths, longest first, between `lo` and the
run length, accepting the first length whose trailing `\b` holds (`next` is
the character following the whole run). -/
def runShrink (lo : Nat) (run : Text) (next : Option Char) : Nat → Option Nat
  | 0 => none
  | k + 1 =>
    if k + 1 < lo || run.length < k + 1 then runShrink lo run next k
    else
      match run.get? k with
      | some last =>
        let nxt := match run.get? (k + 1) with | some c => some c | none => next
        if isBoundary (some last) nxt then some (k + 1) else runShrink lo run next k
      | none => runShrink lo run next k

/-- `\b\d{n}\b` at the current position. -/
def matchDigitsAt (n : Nat) (prev : Option Char) (s : Text) : Option Nat :=
  if isBoundary prev s.head? then
    let run := s.takeWhile Char.isDigit
    if run.length == n &&
        !(match (s.drop n).head? with | none => false | some c => isWordChar c) then
      some n
    else none
  else none

def isEmailLocal (c : Char) : Bool :=
  c.isAlpha || c.isDigit || c == '.' || c == '_' || c == '%' || c == '+' || c == '-'

def isEmailDomain (c : Char) : Bool :=
  c.isAlpha || c.isDigit || c == '.' || c == '-'

/-- TLD class `[A-Z|a-z]` (the source pattern really contains the pipe). -/
def isTldChar (c : Char) : Bool := c.isAlpha || c == '|'

/-- Backtracking over the rightmost-dot split of `\.[A-Z|a-z]{2,}\b` after the
`@`; `i + 1` is the highest candidate dot index.  Returns the length consumed
after the `@`. -/
def emailSplitGo (s : Text) : Nat → Option Nat
  | 0 => none
  | i + 1 =>
    match s.get? (i + 1) with
    | some c =>
      if c == '.' then
        let run := (s.drop (i + 2)).takeWhile isTldChar
        let nxt := (s.drop (i + 2 + run.length)).head?
        match runShrink 2 run nxt run.length with
        | some l => some (i + 2 + l)
        | none => emailSplitGo s i
      else emailSplitGo s i
    | none => emailSplitGo s i

/-- `\b[A-Za-z0-9._%+-]+@[A-Za-z0-9.-]+\.[A-Z|a-z]{2,}\b` at the position. -/
def matchEmailAt (prev : Option Char) (s : Text) : Option Nat :=
  if isBoundary prev s.head? then
    let loc := s.takeWhile isEmailLocal
    if loc.isEmpty then none
    else
      match s.drop loc.length with
      | c :: rest2 =>
        if c == '@' then
          match emailSplitGo rest2 ((rest2.takeWhile isEmailDomain).length - 1) with
          | some l => some (loc.length + 1 + l)
          | none => none
        else none
      | [] => none
  else none

def isD29 (c : Char) : Bool := '2' ≤ c && c ≤ '9'

/-- `\s?/\s?[0-9]{7,10}\b`, both optional blanks greedy. -/
def slashPartTry (s : Text) : Option Nat :=
  let core : Text → Option Nat := fun t =>
    match t with
    | c :: t2 =>
      if c == '/' then
        let withWs :=
          match t2 with
          | w :: t3 =>
            if isPyWS w then
              (runShrink 7 (t3.takeWhile Char.isDigit)
                ((t3.drop (t3.takeWhile Char.isDigit).length).head?) 10).map (· + 2)
            else none
          | [] => none
        match withWs with
        | some n => some n
        | none =>
          (runShrink 7 (t2.takeWhile Char.isDigit)
            ((t2.drop (t2.takeWhile Char.isDigit).length).head?) 10).map (· + 1)
      else none
    | [] => none
  match s with
  | w :: rest =>
    if isPyWS w then
      match (core rest).map (· + 1) with
      | some n => some n
      | none => core s
    else core s
  | [] => none

/-- `[0-9]{6,8}` then the optional slash group then `\b`; `k + 1` is the digit
count being tried (greedy, 8 first). -/
def phoneKTry (rest : Text) : Nat → Option Nat
  | 0 => none
  | k + 1 =>
    if k + 1 < 6 then none
    else if (rest.takeWhile Char.isDigit).length < k + 1 then phoneKTry rest k
    else
      let after := rest.drop (k + 1)
      match slashPartTry after with
      | some extra => some (k + 1 + extra)
      | none =>
        if (match after.head? with | none => false | some c => isWordChar c) then
          phoneKTry rest k
        else some (k + 1)

/-- `(?:0)[2-9][0-9]{6,8}(?:\s?/\s?[0-9]{7,10})?\b`. -/
def phoneCore (s : Text) : Option Nat :=
  match s with
  | c0 :: c1 :: rest =>
    if c0 == '0' && isD29 c1 then
      match phoneKTry rest 8 with
      | some n => some (2 + n)
      | none => none
    else none
  | _ => none

/-- `\b(?:\+593\s?)?(?:0)[2-9][0-9]{6,8}(?:\s?/\s?[0-9]{7,10})?\b`. -/
def matchPhoneAt (prev : Option Char) (s : Text) : Option Nat :=
  if isBoundary prev s.head? then
    let withPfx :=
      match s with
      | '+' :: '5' :: '9' :: '3' :: rest =>
        let withWs :=
          match rest with
          | w :: rest2 =>
            if isPyWS w then (phoneCore rest2).map (· + 5) else none
          | [] => none
        match withWs with
        | some n => some n
        | none => (phoneCore rest).map (· + 4)
      | _ => none
    match withPfx with
    | some n => some n
    | none => phoneCore s
  else none

def isUpperNum (c : Char) : Bool := ('A' ≤ c && c ≤ 'Z') || c.isDigit

def isUpperNumDash (c : Char) : Bool := isUpperNum c || c == '-'

def dirKeywords : List Text :=
  [("CASA").toList, ("EDIFICIO").toList, ("PISO").toList,
   ("DEPARTAMENTO").toList, ("LOCAL").toList]

def kwTry : List Text → Text → Option Text
  | [], _ => none
  | kw :: kws, s =>
    match litWord kw s with
    | some rest => some rest
    | none => kwTry kws s

/-- `\b[A-Z0-9]+\s+Y\s+[A-Z0-9]+,\s+(?:CASA|EDIFICIO|PISO|DEPARTAMENTO|LOCAL)\s+[A-Z0-9\-]+\b`. -/
def matchDireccionAt (prev : Option Char) (s : Text) : Option Nat :=
  if !(isBoundary prev s.head?) then none
  else
    let a := s.takeWhile isUpperNum
    if a.isEmpty then none
    else
      match wsPlus (s.drop a.length) with
      | none => none
      | some s2 =>
        match s2 with
        | 'Y' :: s3a =>
          match wsPlus s3a with
          | none => none
          | some s3 =>
            let b := s3.takeWhile isUpperNum
            if b.isEmpty then none
            else
              match s3.drop b.length with
              | ',' :: s4a =>
                match wsPlus s4a with
                | none => none
                | some s4 =>
                  match kwTry dirKeywords s4 with
                  | none => none
                  | some s5 =>
                    match wsPlus s5 with
                    | none => none
                    | some s6 =>
                      let cRun := s6.takeWhile isUpperNumDash
                      let nxt := (s6.drop cRun.length).head?
                      match runShrink 1 cRun nxt cRun.length with
                      | some l => some (s.length - (s6.length - l))
                      | none => none
              | _ => none
        | _ => none

/-- `re.finditer`: scan left to right, recording each match and resuming after
its end; `prev` is the character before the current position. -/
def scanWithGo (m : Option Char → Text → Option Nat) :
    Nat → Option Char → Text → List Text
  | 0, _, _ => []
  | _ + 1, _, [] => []
  | fuel + 1, prev, c :: rest =>
    match m prev (c :: rest) with
    | some n =>
      let v := (c :: rest).take n
      v :: scanWithGo m fuel v.getLast? ((c :: rest).drop n)
    | none => scanWithGo m fuel (some c) rest

def scanWith (m : Option Char → Text → Option Nat) (s : Text) : List Text :=
  scanWithGo m (s.length + 1) none s

/-- Layer-1 detections in the iteration order of the `PATTERNS` dict:
`ruc`, `cedula`, `email`, `telefono`, `direccion_interseccion`. -/
def capa1Dets (text : Text) : List (Text × Text) :=
  ((scanWith (matchDigitsAt 13) text).map (fun v => (("ruc").toList, v))) ++
  ((scanWith (matchDigitsAt 10) text).map (fun v => (("cedula").toList, v))) ++
  ((scanWith matchEmailAt text).map (fun v => (("email").toList, v))) ++
  ((scanWith matchPhoneAt text).map (fun v => (("telefono").toList, v))) ++
  ((scanWith matchDireccionAt text).map (fun v => (("direccion_interseccion").toList, v)))

/-! ### Layer 1.5: header-context extraction (`patrones_encabezado`) -/

/-- Value class `[A-Za-záéíóúñÑ0-9\s\-\.&,]` of the header name patterns. -/
def isNombreChar (c : Char) : Bool :=
  c.isAlpha || c == 'á' || c == 'é' || c == 'í' || c == 'ó' || c == 'ú' ||
  c == 'ñ' || c == 'Ñ' || c.isDigit || isPyWS c ||
  c == '-' || c == '.' || c == '&' || c == ','

/-- The `direccion` pattern additionally admits `/`. -/
def isDireccionChar (c : Char) : Bool := isNombreChar c || c == '/'

/-- Lazy group `([...]+?)` followed by a lookahead: consume one class
character, stop as soon as the lookahead holds. -/
def lazyCapture (cls : Char → Bool) (look : Text → Bool) : Nat → Text → Option Text
  | 0, _ => none
  | _ + 1, [] => none
  | fuel + 1, c :: rest =>
    if cls c then
      if look rest then some [c]
      else
        match lazyCapture cls look fuel rest with
        | some cap => some (c :: cap)
        | none => none
    else none

/-- `\s*:\s*`. -/
def colonGap (s : Text) : Option Text :=
  match wsStar s with
  | ':' :: rest => some (wsStar rest)
  | _ => none

/-- Case-insensitive literal words separated by `\s+`. -/
def ciSeqWS : List Text → Text → Option Text
  | [], s => some s
  | [w], s => ciWord w s
  | w :: w2 :: ws, s =>
    match ciWord w s with
    | some r =>
      match wsPlus r with
      | some r2 => ciSeqWS (w2 :: ws) r2
      | none => none
    | none => none

/-- Lazy `.*?WORD` (case-insensitive; `.` does not cross a newline). -/
def lazyUntilCi (word : Text) : Nat → Text → Option Text
  | 0, _ => none
  | fuel + 1, s =>
    match ciWord word s with
    | some rest => some rest
    | none =>
      match s with
      | [] => none
      | c :: r => if c == '\n' then none else lazyUntilCi word fuel r

/-- `(?:PRESTADOR\s+O\s+CONCESIONARIO|Poseedor\s+o\s+no.*?Habilitante)`. -/
def prestadorLabel (s : Text) : Option Text :=
  match ciSeqWS [("PRESTADOR").toList, ("O").toList, ("CONCESIONARIO").toList] s with
  | some r => some r
  | none =>
    match ciSeqWS [("Poseedor").toList, ("o").toList, ("no").toList] s with
    | some r => lazyUntilCi (("Habilitante").toList) (r.length + 1) r
    | none => none

def lookPrestador (s : Text) : Bool :=
  ciStarts (("Representante").toList) (wsStar s) ||
  ciStarts (("REPRESENTANTE").toList) s ||
  ciStarts (("Cédula").toList) s || ciStarts (("CEDULA").toList) s ||
  ciStarts (("RUC").toList) s

def lookRepresentante (s : Text) : Bool :=
  ciStarts (("Cédula").toList) (wsStar s) ||
  ciStarts (("CEDULA").toList) s || ciStarts (("RUC").toList) s

def lookDireccion (s : Text) : Bool :=
  ciStarts (("Ciudad").toList) (wsStar s) ||
  ciStarts (("CIUDAD").toList) s ||
  ciStarts (("Provincia").toList) s || ciStarts (("PROVINCIA").toList) s ||
  ciStarts (("Correo").toList) s || ciStarts (("CORREO").toList) s ||
  (match s with | [] => true | '\n' :: _ => true | _ => false)

def matchPrestadorAt (s : Text) : Option Text :=
  match prestadorLabel s with
  | some r1 =>
    match colonGap r1 with
    | some r2 => lazyCapture isNombreChar lookPrestador (r2.length + 1) r2
    | none => none
  | none => none

def matchRepresentanteAt (s : Text) : Option Text :=
  match ciSeqWS [("REPRESENTANTE").toList, ("LEGAL").toList] s with
  | some r1 =>
    match colonGap r1 with
    | some r2 => lazyCapture isNombreChar lookRepresentante (r2.length + 1) r2
    | none => none
  | none => none

def direccionLabel (s : Text) : Option Text :=
  match ciWord (("Dirección").toList) s with
  | some r => some r
  | none =>
    match ciWord (("Direccion").toList) s with
    | some r => some r
    | none =>
      match ciWord (("DIRECCIÓN").toList) s with
      | some r => some r
      | none => ciWord (("DIRECCION").toList) s

def matchDireccionHdrAt (s : Text) : Option Text :=
  match direccionLabel s with
  | some r1 =>
    match colonGap r1 with
    | some r2 => lazyCapture isDireccionChar lookDireccion (r2.length + 1) r2
    | none => none
  | none => none

/-- `re.search`: try the pattern at each position, leftmost first. -/
def searchCapture (m : Text → Option Text) : Nat → Text → Option Text
  | 0, _ => none
  | fuel + 1, s =>
    match m s with
    | some cap => some cap
    | none =>
      match s with
      | [] => none
      | _ :: rest => searchCapture m fuel rest

/-- First 1,500 characters, newlines to blanks, whitespace runs collapsed. -/
def encabezadoNorm (text : Text) : Text :=
  let enc := (text.take 1500).map (fun c => if c == '\n' then ' ' else c)
  collapseWS (enc.length + 1) enc

/-- Header detections `(contexto, raw capture)` in the dict order
`prestador`, `representante`, `direccion`. -/
def headerDets (text : Text) : List (Text × Text) :=
  let enc := encabezadoNorm text
  (match searchCapture matchPrestadorAt (enc.length + 1) enc with
   | some cap => [(("prestador").toList, cap)]
   | none => []) ++
  (match searchCapture matchRepresentanteAt (enc.length + 1) enc with
   | some cap => [(("representante").toList, cap)]
   | none => []) ++
  (match searchCapture matchDireccionHdrAt (enc.length + 1) enc with
   | some cap => [(("direccion").toList, cap)]
   | none => [])

/-- `nombre_limpio`: strip, collapse whitespace, strip dots, then drop the
trailing `[\s,\-\.]+` run. -/
def limpiarNombre (cap : Text) : Text :=
  let n1 := stripChars [('.' : Char)] (normalizarEspacios (stripWS cap))
  (n1.reverse.dropWhile (fun c => isPyWS c || c == ',' || c == '-' || c == '.')).reverse

/-! ### Name variations (`generar_variaciones_nombre`) and their substitution -/

def filterVariacionesGo : List Text → List Text → List Text
  | _, [] => []
  | seen, v :: rest =>
    if seen.contains v || v.length < 5 then filterVariacionesGo seen rest
    else v :: filterVariacionesGo (v :: seen) rest

def generarVariacionesNombre (nombre : Text) : List Text :=
  let limpio := normalizarEspacios nombre
  let palabras := palabrasDe limpio
  let variaciones :=
    match palabras with
    | a :: b :: c :: d :: rest =>
      let apellidos := [a, b]
      let nombres := c :: d :: rest
      [limpio, joinSpace (nombres ++ apellidos), joinSpace apellidos,
       joinSpace nombres, a, c]
    | [a, b, c] =>
      [limpio, c ++ ' ' :: a ++ ' ' :: b, a ++ ' ' :: b,
       b ++ ' ' :: c ++ ' ' :: a, b ++ ' ' :: c]
    | [a, b] => [limpio, b ++ ' ' :: a]
    | _ => [limpio]
  filterVariacionesGo [] variaciones

/-- Stable insertion sort by length, descending (Python
`sorted(key=len, reverse=True)`). -/
def insertDesc (x : Text) : List Text → List Text
  | [] => [x]
  | y :: rest => if y.length < x.length then x :: y :: rest else y :: insertDesc x rest

def sortByLenDesc (l : List Text) : List Text := l.foldl (fun acc x => insertDesc x acc) []

def matchWordCiLen : Text → Text → Option (Nat × Text)
  | [], s => some (0, s)
  | _ :: _, [] => none
  | p :: ps, c :: cs =>
    if ciEq p c then (matchWordCiLen ps cs).map (fun x => (x.1 + 1, x.2)) else none

/-- The literal words of an escaped variation, joined by `\s+`. -/
def matchFlexWords : List Text → Text → Option (Nat × Text)
  | [], s => some (0, s)
  | [w], s => matchWordCiLen w s
  | w :: w2 :: ws, s =>
    match matchWordCiLen w s with
    | some (n, r) =>
      let k := (r.takeWhile isPyWS).length
      if k == 0 then none
      else
        match matchFlexWords (w2 :: ws) (r.drop k) with
        | some (n2, r2) => some (n + k + n2, r2)
        | none => none
    | none => none

/-- `\b` + escaped variation with blanks as `\s+` + `\b`, case-insensitive. -/
def matchFlexAt (words : List Text) (prev : Option Char) (s : Text) : Option Nat :=
  if isBoundary prev s.head? then
    match matchFlexWords words s with
    | some (n, _) =>
      if isBoundary ((s.take n).getLast?) ((s.drop n).head?) then some n else none
    | none => none
  else none

/-- `re.sub` of the flexible pattern, also counting the matches. -/
def replaceFlexGo (words : List Text) (rep : Text) :
    Nat → Option Char → Text → Text × Nat
  | 0, _, s => (s, 0)
  | _ + 1, _, [] => ([], 0)
  | fuel + 1, prev, c :: rest =>
    match matchFlexAt words prev (c :: rest) with
    | some n =>
      let r := replaceFlexGo words rep fuel (((c :: rest).take n).getLast?)
        ((c :: rest).drop n)
      (rep ++ r.1, r.2 + 1)
    | none =>
      let r := replaceFlexGo words rep fuel (some c) rest
      (c :: r.1, r.2)

/-- `buscar_y_reemplazar_variaciones`. -/
def buscarYReemplazarVariaciones (texto : Text) (variaciones : List Text)
    (pseudonimo : Text) : Text × Nat :=
  (sortByLenDesc variaciones).foldl
    (fun acc v =>
      let r := replaceFlexGo (palabrasDe v) pseudonimo (acc.1.length + 1) none acc.1
      (r.1, acc.2 + r.2))
    (texto, 0)

/-! ### Layer 2: spaCy wrapper (`spacy_detector.py`)

The statistical model itself is external and enters as `nlp`; the wrapper
logic (`normalizar_mayusculas`, the PER filter and `es_nombre_real`) is
translated from the source.  Python character predicates are modelled on the
ASCII range. -/

def SIGLAS_CONOCIDAS : List Text :=
  [("ARCOTEL").toList, ("SAI").toList, ("GFC").toList, ("CTDG").toList,
   ("CCON").toList, ("DEDA").toList, ("CTRP").toList, ("CADF").toList,
   ("RUC").toList, ("LOT").toList, ("COA").toList, ("USD").toList,
   ("ROTH").toList, ("TH").toList, ("PAS").toList, ("NER").toList,
   ("IA").toList, ("AI").toList, ("PDF").toList, ("HTML").toList,
   ("API").toList, ("HTTP").toList, ("HTTPS").toList, ("URL").toList,
   ("XML").toList, ("JSON").toList, ("CAFI").toList, ("SGD").toList,
   ("CZ2").toList, ("QUITO").toList, ("GUAYAQUIL").toList, ("CUENCA").toList]

/-- Python `str.strip('.,;:()[]{}')`. -/
def stripPunct (s : Text) : Text :=
  stripChars ['.', ',', ';', ':', '(', ')', '[', ']', '\x7b', '\x7d'] s

/-- Python `str.isupper` (ASCII): some upper-case letter, no lower-case one. -/
def pyIsUpper (s : Text) : Bool :=
  s.any Char.isUpper && s.all (fun c => !c.isLower)

/-- Python `str.isalpha` (ASCII). -/
def pyIsAlpha (s : Text) : Bool :=
  !s.isEmpty && s.all Char.isAlpha

/-- Python `str.title` (ASCII). -/
def pyTitleGo : Bool → Text → Text
  | _, [] => []
  | prevAlpha, c :: rest =>
    if c.isAlpha then
      (if prevAlpha then c.toLower else c.toUpper) :: pyTitleGo true rest
    else c :: pyTitleGo false rest

def pyTitle (s : Text) : Text := pyTitleGo false s

/-- `normalizar_mayusculas`, including the source's suffix slice
`palabra[len(palabra_limpia):]`. -/
def normalizarMayusculas (texto : Text) : Text :=
  joinSpace ((palabrasDe texto).map (fun palabra =>
    let limpia := stripPunct palabra
    if SIGLAS_CONOCIDAS.contains limpia then palabra
    else if pyIsUpper limpia && limpia.length > 2 && pyIsAlpha limpia then
      pyTitle limpia ++ palabra.drop limpia.length
    else palabra))

def palabrasInstitucionalesNER : List Text :=
  [("dirección").toList, ("coordinación").toList, ("unidad").toList,
   ("técnica").toList, ("administrativa").toList, ("financiera").toList,
   ("gestión").toList, ("control").toList, ("registro").toList,
   ("agencia").toList, ("ministerio").toList, ("secretaría").toList,
   ("departamento").toList, ("división").toList, ("ley").toList,
   ("reglamento").toList, ("código").toList, ("estatuto").toList,
   ("manual").toList, ("servicio").toList, ("sistema").toList,
   ("procedimiento").toList, ("proceso").toList, ("arcotel").toList,
   ("telecomunicaciones").toList, ("títulos").toList, ("habilitantes").toList,
   ("orgánica").toList, ("administrativo").toList, ("sancionador").toList,
   ("certificación").toList, ("remisión").toList, ("elaborar").toList,
   ("certifico").toList, ("certificar").toList, ("quinta").toList,
   ("documental").toList, ("quipux").toList, ("equinoccial").toList,
   ("provincia").toList]

def verbosNER : List Text :=
  [("elaborar").toList, ("certificar").toList, ("certifico").toList,
   ("remitir").toList, ("enviar").toList, ("solicitar").toList,
   ("aprobar").toList, ("rechazar").toList, ("validar").toList,
   ("verificar").toList]

def titulosNER : List Text :=
  [("ing.").toList, ("dr.").toList, ("econ.").toList, ("abg.").toList,
   ("msc.").toList, ("phd.").toList, ("mgtr.").toList, ("lic.").toList]

def caracteresInvalidos : List Char := ['→', '←', '•', '○', '●', '\n', '\t']

def conectoresCortos : List Text :=
  [("ing").toList, ("dr").toList, ("sr").toList, ("sra").toList,
   ("ab").toList, ("de").toList, ("la").toList, ("y").toList]

/-- `es_nombre_real`. -/
def esNombreReal (texto : Text) : Bool :=
  let tLower := lowerT texto
  let tClean := stripWS texto
  if palabrasInstitucionalesNER.any (fun p => containsSub p tLower) then false
  else if verbosNER.any (fun v => containsSub v tLower) then false
  else
    let palabras := palabrasDe tClean
    if palabras.length < 2 then false
    else if palabras.length > 5 then false
    else if tClean.length < 10 || tClean.length > 60 then false
    else
      let tieneTitulo := titulosNER.any (fun t => containsSub t tLower)
      if caracteresInvalidos.any (fun c => tClean.contains c) then false
      else if palabras.any (fun p =>
          let limpia := stripChars ['.', ',', ';', ':'] p
          !(conectoresCortos.contains (lowerT limpia)) && limpia.length < 3) then
        false
      else if tieneTitulo && 2 ≤ palabras.length then true
      else if 2 ≤ palabras.length then true
      else false

structure EntSp where
  texto : Text
  tipo : Text
deriving DecidableEq, Repr

/-- `detectar_entidades_spacy`: normalise, run the model, keep validated
PER entities. -/
def detectarEntidadesSpacy (nlp : Text → List EntSp) (texto : Text) : List EntSp :=
  (nlp (normalizarMayusculas texto)).filter
    (fun e => e.tipo == ("PER").toList && esNombreReal e.texto)

/-! ### Layer 3: signature block (`patrones_firmantes`) -/

def isFirmanteChar (c : Char) : Bool :=
  c.isAlpha || c == 'á' || c == 'é' || c == 'í' || c == 'ó' || c == 'ú' ||
  c == 'ñ' || c == 'Ñ' || isPyWS c || c == '.'

/-- `(?=\n|\s{2,})`. -/
def lookFirmante (s : Text) : Bool :=
  match s with
  | '\n' :: _ => true
  | a :: b :: _ => isPyWS a && isPyWS b
  | _ => false

/-- `WORD\s+por:\s+` (case-sensitive). -/
def porLabel (w : Text) (s : Text) : Option Text :=
  match litWord w s with
  | some r1 =>
    match wsPlus r1 with
    | some r2 =>
      match litWord (("por:").toList) r2 with
      | some r3 => wsPlus r3
      | none => none
    | none => none
  | none => none

/-- `TITULO\.\s+` (case-sensitive; the dot is part of `w`). -/
def tituloLabel (w : Text) (s : Text) : Option Text :=
  match litWord w s with
  | some r => wsPlus r
  | none => none

def scanFirmanteGo (labelM : Text → Option Text) : Nat → Text → List Text
  | 0, _ => []
  | _ + 1, [] => []
  | fuel + 1, c :: rest =>
    match (match labelM (c :: rest) with
           | some r2 =>
             (lazyCapture isFirmanteChar lookFirmante (r2.length + 1) r2).map
               (fun cap => (cap, r2.drop cap.length))
           | none => none) with
    | some (cap, rem) => cap :: scanFirmanteGo labelM fuel rem
    | none => scanFirmanteGo labelM fuel rest

/-- Captures of the six signature patterns over the last 2,000 characters,
in the source's pattern order. -/
def firmantesDets (text : Text) : List Text :=
  let seccion := text.drop (text.length - 2000)
  let fuel := seccion.length + 1
  scanFirmanteGo (porLabel (("Elaborado").toList)) fuel seccion ++
  scanFirmanteGo (porLabel (("Revisado").toList)) fuel seccion ++
  scanFirmanteGo (porLabel (("Aprobado").toList)) fuel seccion ++
  scanFirmanteGo (tituloLabel (("Ing.").toList)) fuel seccion ++
  scanFirmanteGo (tituloLabel (("Econ.").toList)) fuel seccion ++
  scanFirmanteGo (tituloLabel (("Dr.").toList)) fuel seccion

/-! ### Exceptions (`EXCEPCIONES`, `FRASES_EXCLUIDAS`, `is_exception`) -/

def EXCEPCIONES : List Text :=
  [("ARCOTEL").toList, ("CAFI").toList, ("CTDG").toList, ("CCON").toList,
   ("DEDA").toList, ("CTRP").toList, ("CADF").toList, ("QUITO").toList,
   ("GUAYAQUIL").toList, ("CUENCA").toList, ("AMBATO").toList,
   ("RIOBAMBA").toList, ("LOJA").toList, ("MACHALA").toList,
   ("PORTOVIEJO").toList, ("MANTA").toList, ("SANTO DOMINGO").toList,
   ("ESMERALDAS").toList, ("IBARRA").toList, ("PICHINCHA").toList,
   ("GUAYAS").toList, ("AZUAY").toList, ("TUNGURAHUA").toList,
   ("CHIMBORAZO").toList, ("MANABÍ").toList, ("EL ORO").toList,
   ("IMBABURA").toList]

def FRASES_EXCLUIDAS : List Text :=
  [("Ley Orgánica de Telecomunicaciones").toList,
   ("Código Orgánico Administrativo").toList,
   ("Registro Oficial").toList,
   ("Agencia de Regulación y Control").toList,
   ("Sistema de Gestión Documental").toList]

def palabrasInstitucionalesExc : List Text :=
  [("ARCOTEL").toList, ("Dirección").toList, ("Coordinación").toList,
   ("Unidad").toList, ("Reglamento").toList, ("Ley").toList,
   ("Código").toList, ("Estatuto").toList, ("Ministerio").toList,
   ("Secretaría").toList, ("Agencia").toList]

/-- `is_exception`. -/
def isException (text : Text) : Bool :=
  let clean := stripWS text
  if (EXCEPCIONES.map upperT).contains (upperT clean) then true
  else if FRASES_EXCLUIDAS.any (fun f => containsSub (lowerT f) (lowerT clean)) then true
  else if palabrasInstitucionalesExc.any (fun p => containsSub p clean) then true
  else false

/-! ### The engine: cache, minting, the four layers, `pseudonymize_text`,
`depseudonymize_text`, the HTTP endpoint and the backend consent gate. -/

/-- Key-service handle (`vault_client.encrypt/decrypt`); failures carry the
error message. -/
structure KS where
  enc : Text → Except Text Text
  dec : Text → Except Text Text

structure Stats where
  regex_detections : Nat
  encabezado_detections : Nat
  spacy_detections : Nat
  firmantes_detections : Nat
  total_unique : Nat
  total_reemplazos : Nat
deriving DecidableEq, Repr

def initStats : Stats := ⟨0, 0, 0, 0, 0, 0⟩

/-- In-flight state of one `pseudonymize_text` call: the text being rewritten,
`processed_values`, the `mapping` dict, the stats, the Redis cache (shared
across calls) and the number of uuid draws consumed so far. -/
structure Ctx where
  ptext : Text
  pv : List Text
  mapping : List (Text × Text)
  stats : Stats
  cache : Cache
  cnt : Nat
deriving DecidableEq, Repr

def cacheGet : Cache → Text → Option Text
  | [], _ => none
  | (k, v) :: rest, key => if k == key then some v else cacheGet rest key

/-- Redis `SET`: the new entry shadows any older one (TTL not modelled). -/
def cacheSet (k v : Text) (c : Cache) : Cache := (k, v) :: c

def fwdKey (sid dt v : Text) : Text := sid ++ (":").toList ++ dt ++ (":").toList ++ v

def revKey (sid tok : Text) : Text := sid ++ (":reverse:").toList ++ tok

/-- Python-dict assignment `mapping[k] = v` (insertion order preserved). -/
def mapSet : List (Text × Text) → Text → Text → List (Text × Text)
  | [], k, v => [(k, v)]
  | (k', v') :: rest, k, v =>
    if k' == k then (k, v) :: rest else (k', v') :: mapSet rest k v

/-- `generate_pseudonym`: `prefix + '_' + str(uuid.uuid4())[:8].upper()`;
`toks n` is the n-th (already upper-cased) draw of the hex source. -/
def generatePseudonym (toks : Nat → Text) (n : Nat) (pfx : Text) : Text :=
  pfx ++ '_' :: toks n

/-- The shared mint-or-reuse block: forward-cache lookup, else draw a token,
encrypt, write the reverse and then the forward binding and bump the layer's
detection counter.  Returns (failure?, pseudonym, new state); on an
`encrypt` failure nothing is written but the uuid draw is consumed. -/
def bindValue (ks : KS) (toks : Nat → Text) (sid dt pfx : Text)
    (bump : Stats → Stats) (v : Text) (ctx : Ctx) : Option Text × Text × Ctx :=
  match cacheGet ctx.cache (fwdKey sid dt v) with
  | some p => (none, p, ctx)
  | none =>
    let p := generatePseudonym toks ctx.cnt pfx
    match ks.enc v with
    | .error e => (some e, p, { ctx with cnt := ctx.cnt + 1 })
    | .ok encVal =>
      (none, p,
        { ctx with
          cnt := ctx.cnt + 1
          cache := cacheSet (fwdKey sid dt v) p
            (cacheSet (revKey sid p) encVal ctx.cache)
          stats := bump ctx.stats })

def bumpRegex (st : Stats) : Stats :=
  { st with regex_detections := st.regex_detections + 1 }

def bumpEncabezado (st : Stats) : Stats :=
  { st with encabezado_detections := st.encabezado_detections + 1 }

def bumpSpacy (st : Stats) : Stats :=
  { st with spacy_detections := st.spacy_detections + 1 }

def bumpFirmantes (st : Stats) : Stats :=
  { st with firmantes_detections := st.firmantes_detections + 1 }

def bumpReemplazos (n : Nat) (st : Stats) : Stats :=
  { st with total_reemplazos := st.total_reemplazos + n }

/-- `prefix_map.get(data_type, 'PSN')` of Layer 1. -/
def prefixFor (dt : Text) : Text :=
  if dt == ("ruc").toList then ("RUC").toList
  else if dt == ("cedula").toList then ("CEDULA").toList
  else if dt == ("email").toList then ("EMAIL").toList
  else if dt == ("telefono").toList then ("TELEFONO").toList
  else if dt == ("direccion_interseccion").toList then ("DIRECCION").toList
  else ("PSN").toList

/-- Layer 1 loop body for one `(data_type, match)` pair: skip values already
processed or excepted, else bind, then always substitute, record the mapping
entry and count the substitution — with no check that the replacement changed
anything. -/
def capa1Step (ks : KS) (toks : Nat → Text) (sid : Text) (d : Text × Text)
    (ctx : Ctx) : Option Text × Ctx :=
  let v := stripWS d.2
  if ctx.pv.contains v then (none, ctx)
  else if isException v then (none, ctx)
  else
    match bindValue ks toks sid d.1 (prefixFor d.1) bumpRegex v ctx with
    | (some e, _, ctx') => (some e, ctx')
    | (none, p, ctx') =>
      (none,
        { ctx' with
          ptext := replaceAll v p ctx'.ptext
          mapping := mapSet ctx'.mapping p v
          pv := v :: ctx'.pv
          stats := bumpReemplazos 1 ctx'.stats })

def capa1Go (ks : KS) (toks : Nat → Text) (sid : Text) :
    List (Text × Text) → Ctx → Option Text × Ctx
  | [], ctx => (none, ctx)
  | d :: rest, ctx =>
    match capa1Step ks toks sid d ctx with
    | (some e, ctx') => (some e, ctx')
    | (none, ctx') => capa1Go ks toks sid rest ctx'

/-- Layer 1.5 body for one header detection `(contexto, capture)`: clean the
capture, bind it (cache writes happen here, before any replacement), then
replace all variations; only a strictly positive replacement count adds the
mapping entry. -/
def capa15Step (ks : KS) (toks : Nat → Text) (sid : Text) (d : Text × Text)
    (ctx : Ctx) : Option Text × Ctx :=
  let limpio := limpiarNombre d.2
  if 10 ≤ limpio.length then
    let variaciones :=
      if d.1 == ("direccion").toList then [limpio]
      else generarVariacionesNombre limpio
    let dt := ("nombre_encabezado_").toList ++ d.1
    let pfx :=
      if d.1 == ("direccion").toList then ("DIRECCION").toList
      else ("NOMBRE").toList
    match bindValue ks toks sid dt pfx bumpEncabezado limpio ctx with
    | (some e, _, ctx') => (some e, ctx')
    | (none, p, ctx') =>
      let br := buscarYReemplazarVariaciones ctx'.ptext variaciones p
      if 0 < br.2 then
        (none,
          { ctx' with
            ptext := br.1
            mapping := mapSet ctx'.mapping p limpio
            pv := limpio :: ctx'.pv
            stats := bumpReemplazos br.2 ctx'.stats })
      else (none, { ctx' with ptext := br.1 })
  else (none, ctx)

def capa15Go (ks : KS) (toks : Nat → Text) (sid : Text) :
    List (Text × Text) → Ctx → Option Text × Ctx
  | [], ctx => (none, ctx)
  | d :: rest, ctx =>
    match capa15Step ks toks sid d ctx with
    | (some e, ctx') => (some e, ctx')
    | (none, ctx') => capa15Go ks toks sid rest ctx'

/-- Layer 2 body for one validated spaCy entity: normalise the entity text,
skip processed/excepted values, else bind and substitute the literal value
(case-sensitively), recording mapping and stats unconditionally. -/
def capa2Step (ks : KS) (toks : Nat → Text) (sid : Text) (ent : EntSp)
    (ctx : Ctx) : Option Text × Ctx :=
  let v := normalizarEspacios (stripWS ent.texto)
  if ctx.pv.contains v then (none, ctx)
  else if isException v then (none, ctx)
  else
    match bindValue ks toks sid (("nombre_persona").toList)
        (("NOMBRE").toList) bumpSpacy v ctx with
    | (some e, _, ctx') => (some e, ctx')
    | (none, p, ctx') =>
      (none,
        { ctx' with
          ptext := replaceAll v p ctx'.ptext
          mapping := mapSet ctx'.mapping p v
          pv := v :: ctx'.pv
          stats := bumpReemplazos 1 ctx'.stats })

def capa2Go (ks : KS) (toks : Nat → Text) (sid : Text) :
    List EntSp → Ctx → Option Text × Ctx
  | [], ctx => (none, ctx)
  | ent :: rest, ctx =>
    match capa2Step ks toks sid ent ctx with
    | (some e, ctx') => (some e, ctx')
    | (none, ctx') => capa2Go ks toks sid rest ctx'

/-- Layer 3 body for one signature capture. -/
def capa3Step (ks : KS) (toks : Nat → Text) (sid : Text) (nombre : Text)
    (ctx : Ctx) : Option Text × Ctx :=
  let limpio := stripChars [('.' : Char)] (normalizarEspacios (stripWS nombre))
  if 5 ≤ limpio.length && !(ctx.pv.contains limpio) then
    match bindValue ks toks sid (("nombre_firmante").toList)
        (("NOMBRE").toList) bumpFirmantes limpio ctx with
    | (some e, _, ctx') => (some e, ctx')
    | (none, p, ctx') =>
      (none,
        { ctx' with
          ptext := replaceAll limpio p ctx'.ptext
          mapping := mapSet ctx'.mapping p limpio
          pv := limpio :: ctx'.pv
          stats := bumpReemplazos 1 ctx'.stats })
  else (none, ctx)

def capa3Go (ks : KS) (toks : Nat → Text) (sid : Text) :
    List Text → Ctx → Option Text × Ctx
  | [], ctx => (none, ctx)
  | nombre :: rest, ctx =>
    match capa3Step ks toks sid nombre ctx with
    | (some e, ctx') => (some e, ctx')
    | (none, ctx') => capa3Go ks toks sid rest ctx'

/-- Early-return sequencing of two engine stages: a raised exception skips the
rest of the call. -/
def seqE (r : Option Text × Ctx) (f : Ctx → Option Text × Ctx) : Option Text × Ctx :=
  match r with
  | (some e, ctx) => (some e, ctx)
  | (none, ctx) => f ctx

/-- `pseudonymize_text`: the four layers in order, then
`stats['total_unique'] = len(mapping)`; an encrypt failure aborts the call
(the state, including all cache writes already made, survives, as the Redis
effects do in the source). -/
def pseudonymizeText (ks : KS) (nlp : Text → List EntSp) (toks : Nat → Text)
    (text sid : Text) (cache0 : Cache) (cnt0 : Nat) : Option Text × Ctx :=
  seqE (capa1Go ks toks sid (capa1Dets text) ⟨text, [], [], initStats, cache0, cnt0⟩)
    (fun ctx1 =>
  seqE (capa15Go ks toks sid (headerDets text) ctx1) (fun ctx2 =>
  seqE (capa2Go ks toks sid (detectarEntidadesSpacy nlp text) ctx2) (fun ctx3 =>
  seqE (capa3Go ks toks sid (firmantesDets text) ctx3) (fun ctx4 =>
    (none, { ctx4 with
      stats := { ctx4.stats with total_unique := ctx4.mapping.length } })))))

structure PResult where
  pseudonymized_text : Text
  session_id : Text
  mapping : List (Text × Text)
  pseudonyms_count : Nat
  stats : Stats
deriving DecidableEq, Repr

def mkResult (sid : Text) (ctx : Ctx) : PResult :=
  ⟨ctx.ptext, sid, ctx.mapping, ctx.mapping.length, ctx.stats⟩

/-! ### `depseudonymize_text` -/

def isHexUp (c : Char) : Bool := c.isDigit || ('A' ≤ c && c ≤ 'F')

def isUpperAZ (c : Char) : Bool := c.isUpper

/-- `\b[A-Z]+_[A-F0-9]{8}\b` at the position. -/
def matchTokAt (prev : Option Char) (s : Text) : Option Nat :=
  if isBoundary prev s.head? then
    let run := s.takeWhile isUpperAZ
    if run.isEmpty then none
    else
      match s.drop run.length with
      | c :: rest =>
        if c == '_' then
          let hex := rest.take 8
          if hex.length == 8 && hex.all isHexUp &&
              !(match (rest.drop 8).head? with
                | none => false
                | some d => isWordChar d) then
            some (run.length + 9)
          else none
        else none
      | [] => none
  else none

def scanTokens (s : Text) : List Text := scanWith matchTokAt s

/-- `depseudonymize_text`: scan the input for tokens, resolve each reverse
binding, decrypt and substitute globally; a missing binding or a decrypt
failure leaves that token alone and the loop continues. -/
def depseudonymizeText (ks : KS) (sid text : Text) (cache : Cache) : Text :=
  (scanTokens text).foldl
    (fun acc tok =>
      match cacheGet cache (revKey sid tok) with
      | none => acc
      | some encVal =>
        match ks.dec encVal with
        | .ok v => replaceAll tok v acc
        | .error _ => acc)
    text

/-! ### HTTP endpoint (`internal.py` `/pseudonymize`) and configuration -/

/-- `Settings.MAX_TEXT_LENGTH` default (config.py); the value is declared but
never consulted by any endpoint. -/
def MAX_TEXT_LENGTH : Nat := 100000

structure HttpResp where
  status : Nat
  body : Option PResult
deriving DecidableEq, Repr

/-- The `/internal/pseudonymize` handler: run the engine on the request as
received; any exception becomes a 500.  No input-size check exists. -/
def pseudonymizeEndpoint (ks : KS) (nlp : Text → List EntSp) (toks : Nat → Text)
    (text sid : Text) (cache0 : Cache) (cnt0 : Nat) : HttpResp × Ctx :=
  match pseudonymizeText ks nlp toks text sid cache0 cnt0 with
  | (some _, ctx) => (⟨500, none⟩, ctx)
  | (none, ctx) => (⟨200, some (mkResult sid ctx)⟩, ctx)

/-! ### Consent gate of the backend orchestrator
(`backend/app/api/procesador.py`, `procesar_archivos`) -/

structure ProcesarRequest where
  archivos : List Text
  forzar_reprocesar : Bool
  session_id : Option Text
  confirmado : Bool

inductive GateResult where
  | rechazo (status : Nat) (error : Text) (pasos : List Text) (cumplimiento : Text)
  | continuar
deriving DecidableEq, Repr

def pasosRequeridos : List Text :=
  [("1. POST /api/validacion/previsualizar con el(los) archivo(s)").toList,
   ("2. Descargar el HTML generado").toList,
   ("3. Revisar MANUALMENTE que TODO el texto está pseudonimizado").toList,
   ("4. Verificar que NO aparecen nombres, cédulas, emails o direcciones REALES").toList,
   ("5. Solo si TODO está correcto, llamar a este endpoint con:").toList,
   ("   - session_id: (el recibido en paso 1)").toList,
   ("   - confirmado: true").toList]

/-- Python falsiness of `request.session_id` (absent or empty). -/
def sessionFalsy : Option Text → Bool
  | none => true
  | some s => s.isEmpty

/-- The validation block at the head of `procesar_archivos`: reject 403 when
not confirmed (body with the required steps and the LOPDP articles), reject
400 when the session id is missing, else continue. -/
def consentGate (r : ProcesarRequest) : GateResult :=
  if !r.confirmado then
    .rechazo 403 (("CONFIRMACIÓN REQUERIDA - CUMPLIMIENTO LOPDP").toList)
      pasosRequeridos (("LOPDP Ecuador Arts. 8, 10.e, 33, 37, 68").toList)
  else if sessionFalsy r.session_id then
    .rechazo 400 (("SESSION_ID REQUERIDO").toList) [] []
  else .continuar

/-! ### Basic lemmas about the session cache -/

/-- The data types under which the engine ever writes a forward binding. -/
def DTS : List Text :=
  [("ruc").toList, ("cedula").toList, ("email").toList, ("telefono").toList,
   ("direccion_interseccion").toList,
   ("nombre_encabezado_prestador").toList,
   ("nombre_encabezado_representante").toList,
   ("nombre_encabezado_direccion").toList,
   ("nombre_persona").toList, ("nombre_firmante").toList]

lemma cacheGet_set_self (k v : Text) (c : Cache) :
    cacheGet (cacheSet k v c) k = some v := by
  simp [cacheGet, cacheSet]

lemma cacheGet_set_ne {k' k : Text} (v : Text) (c : Cache) (h : k' ≠ k) :
    cacheGet (cacheSet k' v c) k = cacheGet c k := by
  simp [cacheGet, cacheSet, beq_iff_eq, h]

/-- A forward key of the engine never coincides with a reverse key. -/
lemma fwdKey_ne_revKey (sid dt v tok : Text) (hdt : dt ∈ DTS) :
    fwdKey sid dt v ≠ revKey sid tok := by
  intro heq
  unfold fwdKey revKey at heq
  simp only [List.append_assoc] at heq
  have h2 := List.append_cancel_left heq
  fin_cases hdt <;> simp_all

/-- Distinct data-type/value pairs give distinct forward keys (for the
data types of the engine, which contain no colon). -/
lemma fwdKey_inj (sid : Text) {dt v dt' v' : Text}
    (hdt : dt ∈ DTS) (hdt' : dt' ∈ DTS)
    (h : fwdKey sid dt v = fwdKey sid dt' v') : dt = dt' ∧ v = v' := by
  unfold fwdKey at h
  simp only [List.append_assoc] at h
  have h2 := List.append_cancel_left h
  fin_cases hdt <;> fin_cases hdt' <;> simp_all

lemma revKey_inj (sid : Text) {t t' : Text} (h : revKey sid t = revKey sid t') :
    t = t' := by
  unfold revKey at h
  simp only [List.append_assoc] at h
  have h2 := List.append_cancel_left h
  simpa using h2

/-- Stability of the engine's forward bindings between two cache states. -/
def StableFwd (sid : Text) (c c' : Cache) : Prop :=
  ∀ dt v p, dt ∈ DTS → cacheGet c (fwdKey sid dt v) = some p →
    cacheGet c' (fwdKey sid dt v) = some p

lemma StableFwd.rfl (sid : Text) (c : Cache) : StableFwd sid c c :=
  fun _ _ _ _ h => h

lemma StableFwd.chain {sid : Text} {a b c : Cache}
    (h1 : StableFwd sid a b) (h2 : StableFwd sid b c) : StableFwd sid a c :=
  fun dt v p hdt h => h2 dt v p hdt (h1 dt v p hdt h)

/-! ### Lemmas about `bindValue` -/

lemma bindValue_fields (ks : KS) (toks : Nat → Text) (sid dt pfx : Text)
    (bump : Stats → Stats) (v : Text) (ctx : Ctx) :
    (bindValue ks toks sid dt pfx bump v ctx).2.2.ptext = ctx.ptext ∧
    (bindValue ks toks sid dt pfx bump v ctx).2.2.pv = ctx.pv ∧
    (bindValue ks toks sid dt pfx bump v ctx).2.2.mapping = ctx.mapping := by
  unfold bindValue
  cases cacheGet ctx.cache (fwdKey sid dt v) with
  | some p => simp
  | none => cases ks.enc v <;> simp

/-- After a successful bind the forward binding is present with the returned
pseudonym. -/
lemma bindValue_fwd (ks : KS) (toks : Nat → Text) (sid dt pfx : Text)
    (bump : Stats → Stats) (v : Text) (ctx : Ctx) {p : Text} {ctx' : Ctx}
    (h : bindValue ks toks sid dt pfx bump v ctx = (none, p, ctx')) :
    cacheGet ctx'.cache (fwdKey sid dt v) = some p := by
  unfold bindValue at h
  cases hlk : cacheGet ctx.cache (fwdKey sid dt v) with
  | some q =>
    rw [hlk] at h
    have hq : q = p := congrArg (fun r => r.2.1) h
    have hctx : ctx = ctx' := congrArg (fun r => r.2.2) h
    rw [← hctx, hlk, hq]
  | none =>
    rw [hlk] at h
    cases henc : ks.enc v with
    | error e =>
      rw [henc] at h
      exact absurd (congrArg (fun r => r.1) h) (by simp)
    | ok ev =>
      rw [henc] at h
      have hp : generatePseudonym toks ctx.cnt pfx = p := congrArg (fun r => r.2.1) h
      have hc := congrArg (fun r => r.2.2.cache) h
      simp only at hc
      rw [← hc, hp]
      exact cacheGet_set_self _ _ _

/-- A cache hit replays: with the binding present the shared block returns the
cached pseudonym and changes nothing. -/
lemma bindValue_replay (ks : KS) (toks : Nat → Text) (sid dt pfx : Text)
    (bump : Stats → Stats) (v : Text) (ctx : Ctx) {p : Text}
    (h : cacheGet ctx.cache (fwdKey sid dt v) = some p) :
    bindValue ks toks sid dt pfx bump v ctx = (none, p, ctx) := by
  unfold bindValue
  rw [h]

lemma bindValue_stableFwd (ks : KS) (toks : Nat → Text) (sid dt pfx : Text)
    (bump : Stats → Stats) (v : Text) (ctx : Ctx) :
    StableFwd sid ctx.cache (bindValue ks toks sid dt pfx bump v ctx).2.2.cache := by
  unfold bindValue
  cases hlk : cacheGet ctx.cache (fwdKey sid dt v) with
  | some p => exact StableFwd.rfl _ _
  | none =>
    cases henc : ks.enc v with
    | error e => exact StableFwd.rfl _ _
    | ok ev =>
      intro dt' v' p' hdt' hget
      simp only
      have hne1 : fwdKey sid dt v ≠ fwdKey sid dt' v' := by
        intro hk
        rw [hk] at hlk
        rw [hlk] at hget
        exact Option.noConfusion hget
      have hne2 : revKey sid (generatePseudonym toks ctx.cnt pfx) ≠ fwdKey sid dt' v' :=
        (fwdKey_ne_revKey sid dt' v' _ hdt').symm
      rw [cacheGet_set_ne _ _ hne1, cacheGet_set_ne _ _ hne2]
      exact hget

/-! ### Stability of the forward bindings across the layers -/

lemma capa1Step_stableFwd (ks : KS) (toks : Nat → Text) (sid : Text)
    (d : Text × Text) (ctx : Ctx) :
    StableFwd sid ctx.cache (capa1Step ks toks sid d ctx).2.cache := by
  have hbind := bindValue_stableFwd ks toks sid d.1 (prefixFor d.1) bumpRegex
    (stripWS d.2) ctx
  simp only [capa1Step]
  by_cases h1 : ctx.pv.contains (stripWS d.2) = true
  · rw [if_pos h1]; exact StableFwd.rfl _ _
  · rw [if_neg h1]
    by_cases h2 : isException (stripWS d.2) = true
    · rw [if_pos h2]; exact StableFwd.rfl _ _
    · rw [if_neg h2]
      rcases hbv : bindValue ks toks sid d.1 (prefixFor d.1) bumpRegex (stripWS d.2) ctx
        with ⟨e, p, ctx'⟩
      rw [hbv] at hbind
      cases e with
      | some err => exact hbind
      | none => exact hbind

lemma capa15Step_stableFwd (ks : KS) (toks : Nat → Text) (sid : Text)
    (d : Text × Text) (ctx : Ctx) :
    StableFwd sid ctx.cache (capa15Step ks toks sid d ctx).2.cache := by
  simp only [capa15Step]
  by_cases h10 : 10 ≤ (limpiarNombre d.2).length
  · rw [if_pos h10]
    generalize (if d.1 == ("direccion").toList then [limpiarNombre d.2]
      else generarVariacionesNombre (limpiarNombre d.2)) = vars
    generalize (if d.1 == ("direccion").toList then ("DIRECCION").toList
      else ("NOMBRE").toList) = pf
    have hbind := bindValue_stableFwd ks toks sid
      (("nombre_encabezado_").toList ++ d.1) pf bumpEncabezado (limpiarNombre d.2) ctx
    rcases hbv : bindValue ks toks sid (("nombre_encabezado_").toList ++ d.1) pf
      bumpEncabezado (limpiarNombre d.2) ctx with ⟨e, p, ctx'⟩
    rw [hbv] at hbind
    cases e with
    | some err => exact hbind
    | none =>
      rcases hbr : buscarYReemplazarVariaciones ctx'.ptext vars p with ⟨bt, bn⟩
      simp only [hbr]
      by_cases h0 : 0 < bn
      · rw [if_pos h0]; exact hbind
      · rw [if_neg h0]; exact hbind
  · rw [if_neg h10]; exact StableFwd.rfl _ _

lemma capa2Step_stableFwd (ks : KS) (toks : Nat → Text) (sid : Text)
    (ent : EntSp) (ctx : Ctx) :
    StableFwd sid ctx.cache (capa2Step ks toks sid ent ctx).2.cache := by
  have hbind := bindValue_stableFwd ks toks sid (("nombre_persona").toList)
    (("NOMBRE").toList) bumpSpacy (normalizarEspacios (stripWS ent.texto)) ctx
  simp only [capa2Step]
  by_cases h1 : ctx.pv.contains (normalizarEspacios (stripWS ent.texto)) = true
  · rw [if_pos h1]; exact StableFwd.rfl _ _
  · rw [if_neg h1]
    by_cases h2 : isException (normalizarEspacios (stripWS ent.texto)) = true
    · rw [if_pos h2]; exact StableFwd.rfl _ _
    · rw [if_neg h2]
      rcases hbv : bindValue ks toks sid (("nombre_persona").toList)
        (("NOMBRE").toList) bumpSpacy (normalizarEspacios (stripWS ent.texto)) ctx
        with ⟨e, p, ctx'⟩
      rw [hbv] at hbind
      cases e with
      | some err => exact hbind
      | none => exact hbind

lemma capa3Step_stableFwd (ks : KS) (toks : Nat → Text) (sid : Text)
    (nombre : Text) (ctx : Ctx) :
    StableFwd sid ctx.cache (capa3Step ks toks sid nombre ctx).2.cache := by
  have hbind := bindValue_stableFwd ks toks sid (("nombre_firmante").toList)
    (("NOMBRE").toList) bumpFirmantes
    (stripChars [('.' : Char)] (normalizarEspacios (stripWS nombre))) ctx
  simp only [capa3Step]
  by_cases h1 : (5 ≤ (stripChars [('.' : Char)] (normalizarEspacios (stripWS nombre))).length &&
      !(ctx.pv.contains (stripChars [('.' : Char)] (normalizarEspacios (stripWS nombre))))) = true
  · rw [if_pos h1]
    rcases hbv : bindValue ks toks sid (("nombre_firmante").toList)
      (("NOMBRE").toList) bumpFirmantes
      (stripChars [('.' : Char)] (normalizarEspacios (stripWS nombre))) ctx
      with ⟨e, p, ctx'⟩
    rw [hbv] at hbind
    cases e with
    | some err => exact hbind
    | none => exact hbind
  · rw [if_neg h1]; exact StableFwd.rfl _ _

lemma capa1Go_stableFwd (ks : KS) (toks : Nat → Text) (sid : Text) :
    ∀ dets ctx, StableFwd sid ctx.cache (capa1Go ks toks sid dets ctx).2.cache := by
  intro dets
  induction dets with
  | nil => intro ctx; exact StableFwd.rfl _ _
  | cons d rest ih =>
    intro ctx
    have h1 := capa1Step_stableFwd ks toks sid d ctx
    rcases hst : capa1Step ks toks sid d ctx with ⟨e, ctx'⟩
    rw [hst] at h1
    cases e with
    | some err => simp only [capa1Go, hst]; exact h1
    | none =>
      simp only [capa1Go, hst]
      exact StableFwd.chain h1 (ih ctx')

lemma capa15Go_stableFwd (ks : KS) (toks : Nat → Text) (sid : Text) :
    ∀ dets ctx, StableFwd sid ctx.cache (capa15Go ks toks sid dets ctx).2.cache := by
  intro dets
  induction dets with
  | nil => intro ctx; exact StableFwd.rfl _ _
  | cons d rest ih =>
    intro ctx
    have h1 := capa15Step_stableFwd ks toks sid d ctx
    rcases hst : capa15Step ks toks sid d ctx with ⟨e, ctx'⟩
    rw [hst] at h1
    cases e with
    | some err => simp only [capa15Go, hst]; exact h1
    | none =>
      simp only [capa15Go, hst]
      exact StableFwd.chain h1 (ih ctx')

lemma capa2Go_stableFwd (ks : KS) (toks : Nat → Text) (sid : Text) :
    ∀ ents ctx, StableFwd sid ctx.cache (capa2Go ks toks sid ents ctx).2.cache := by
  intro ents
  induction ents with
  | nil => intro ctx; exact StableFwd.rfl _ _
  | cons ent rest ih =>
    intro ctx
    have h1 := capa2Step_stableFwd ks toks sid ent ctx
    rcases hst : capa2Step ks toks sid ent ctx with ⟨e, ctx'⟩
    rw [hst] at h1
    cases e with
    | some err => simp only [capa2Go, hst]; exact h1
    | none =>
      simp only [capa2Go, hst]
      exact StableFwd.chain h1 (ih ctx')

lemma capa3Go_stableFwd (ks : KS) (toks : Nat → Text) (sid : Text) :
    ∀ dets ctx, StableFwd sid ctx.cache (capa3Go ks toks sid dets ctx).2.cache := by
  intro dets
  induction dets with
  | nil => intro ctx; exact StableFwd.rfl _ _
  | cons nombre rest ih =>
    intro ctx
    have h1 := capa3Step_stableFwd ks toks sid nombre ctx
    rcases hst : capa3Step ks toks sid nombre ctx with ⟨e, ctx'⟩
    rw [hst] at h1
    cases e with
    | some err => simp only [capa3Go, hst]; exact h1
    | none =>
      simp only [capa3Go, hst]
      exact StableFwd.chain h1 (ih ctx')

/-- No forward binding present before or created during a `pseudonymize_text`
call is ever removed or overwritten by the rest of the call, whether the call
succeeds or aborts. -/
lemma pseudonymizeText_stableFwd (ks : KS) (nlp : Text → List EntSp)
    (toks : Nat → Text) (text sid : Text) (c0 : Cache) (n0 : Nat) :
    StableFwd sid c0 (pseudonymizeText ks nlp toks text sid c0 n0).2.cache := by
  unfold pseudonymizeText
  have s1 := capa1Go_stableFwd ks toks sid (capa1Dets text)
    ⟨text, [], [], initStats, c0, n0⟩
  rcases h1 : capa1Go ks toks sid (capa1Dets text) ⟨text, [], [], initStats, c0, n0⟩
    with ⟨e1, ctx1⟩
  rw [h1] at s1
  cases e1 with
  | some err => simp only [seqE]; exact s1
  | none =>
    simp only [seqE]
    have s2 := capa15Go_stableFwd ks toks sid (headerDets text) ctx1
    rcases h2 : capa15Go ks toks sid (headerDets text) ctx1 with ⟨e2, ctx2⟩
    rw [h2] at s2
    cases e2 with
    | some err => simp only [seqE]; exact StableFwd.chain s1 s2
    | none =>
      simp only [seqE]
      have s3 := capa2Go_stableFwd ks toks sid (detectarEntidadesSpacy nlp text) ctx2
      rcases h3 : capa2Go ks toks sid (detectarEntidadesSpacy nlp text) ctx2 with ⟨e3, ctx3⟩
      rw [h3] at s3
      cases e3 with
      | some err => simp only [seqE]; exact StableFwd.chain (StableFwd.chain s1 s2) s3
      | none =>
        simp only [seqE]
        have s4 := capa3Go_stableFwd ks toks sid (firmantesDets text) ctx3
        rcases h4 : capa3Go ks toks sid (firmantesDets text) ctx3 with ⟨e4, ctx4⟩
        rw [h4] at s4
        have s14 := StableFwd.chain (StableFwd.chain (StableFwd.chain s1 s2) s3) s4
        cases e4 with
        | some err => simp only [seqE]; exact s14
        | none => simp only [seqE]; exact s14

lemma capa1Dets_dts (text : Text) : ∀ d ∈ capa1Dets text, d.1 ∈ DTS := by
  intro d hd
  simp only [capa1Dets, List.mem_append, List.mem_map] at hd
  rcases hd with ((((⟨v, _, rfl⟩ | ⟨v, _, rfl⟩) | ⟨v, _, rfl⟩) | ⟨v, _, rfl⟩) | ⟨v, _, rfl⟩) <;>
    simp [DTS]

lemma headerDets_dts (text : Text) :
    ∀ d ∈ headerDets text, ("nombre_encabezado_").toList ++ d.1 ∈ DTS := by
  intro d hd
  simp only [headerDets, List.mem_append] at hd
  rcases hd with ((h | h) | h) <;>
    · revert h
      split <;> intro h <;> simp_all <;> subst h <;> decide

/-! ### Replay lemmas: a second run over an identical text hits the cache -/

/-- The four per-layer mint counters agree (the second call mints nothing, so
its counters stay at their initial values). -/
def SameMints (a b : Stats) : Prop :=
  a.regex_detections = b.regex_detections ∧
  a.encabezado_detections = b.encabezado_detections ∧
  a.spacy_detections = b.spacy_detections ∧
  a.firmantes_detections = b.firmantes_detections

lemma SameMints.refl (a : Stats) : SameMints a a := ⟨Eq.refl _, Eq.refl _, Eq.refl _, Eq.refl _⟩

lemma SameMints.trans {a b c : Stats} (h1 : SameMints a b) (h2 : SameMints b c) :
    SameMints a c :=
  ⟨h1.1.trans h2.1, h1.2.1.trans h2.2.1, h1.2.2.1.trans h2.2.2.1, h1.2.2.2.trans h2.2.2.2⟩

lemma SameMints.bump (n : Nat) (a : Stats) : SameMints (bumpReemplazos n a) a := by
  simp [bumpReemplazos, SameMints]

lemma capa1Step_replay (ks ks2 : KS) (toks toks2 : Nat → Text) (sid : Text)
    (d : Text × Text) (ctx ctxA : Ctx) (C : Cache) (st0 : Stats) (m : Nat)
    (hdt : d.1 ∈ DTS)
    (h : capa1Step ks toks sid d ctx = (none, ctxA))
    (hstab : StableFwd sid ctxA.cache C) :
    ∃ st', capa1Step ks2 toks2 sid d ⟨ctx.ptext, ctx.pv, ctx.mapping, st0, C, m⟩ =
      (none, ⟨ctxA.ptext, ctxA.pv, ctxA.mapping, st', C, m⟩) ∧ SameMints st' st0 := by
  simp only [capa1Step] at h ⊢
  dsimp only
  by_cases h1 : ctx.pv.contains (stripWS d.2) = true
  · rw [if_pos h1] at h
    rw [if_pos h1]
    have hA : ctx = ctxA := congrArg Prod.snd h
    subst hA
    exact ⟨st0, rfl, SameMints.refl st0⟩
  · rw [if_neg h1] at h
    rw [if_neg h1]
    by_cases h2 : isException (stripWS d.2) = true
    · rw [if_pos h2] at h
      rw [if_pos h2]
      have hA : ctx = ctxA := congrArg Prod.snd h
      subst hA
      exact ⟨st0, rfl, SameMints.refl st0⟩
    · rw [if_neg h2] at h
      rw [if_neg h2]
      rcases hbv : bindValue ks toks sid d.1 (prefixFor d.1) bumpRegex (stripWS d.2) ctx
        with ⟨e, p, ctx'⟩
      rw [hbv] at h
      cases e with
      | some err => exact absurd (congrArg Prod.fst h) (by simp)
      | none =>
        have hA := (congrArg Prod.snd h).symm
        dsimp only at hA
        have hf := bindValue_fields ks toks sid d.1 (prefixFor d.1) bumpRegex (stripWS d.2) ctx
        rw [hbv] at hf
        dsimp only at hf
        obtain ⟨hpt, hpv, hmp⟩ := hf
        have hcacheA : ctxA.cache = ctx'.cache := by rw [hA]
        have hkey : cacheGet C (fwdKey sid d.1 (stripWS d.2)) = some p := by
          have h0 := bindValue_fwd ks toks sid d.1 (prefixFor d.1) bumpRegex (stripWS d.2) ctx hbv
          exact hstab d.1 (stripWS d.2) p hdt (hcacheA ▸ h0)
        rw [bindValue_replay ks2 toks2 sid d.1 (prefixFor d.1) bumpRegex (stripWS d.2)
          ⟨ctx.ptext, ctx.pv, ctx.mapping, st0, C, m⟩ hkey]
        refine ⟨bumpReemplazos 1 st0, ?_, SameMints.bump 1 st0⟩
        rw [hA]
        dsimp only
        rw [hpt, hpv, hmp]

lemma capa15Step_replay (ks ks2 : KS) (toks toks2 : Nat → Text) (sid : Text)
    (d : Text × Text) (ctx ctxA : Ctx) (C : Cache) (st0 : Stats) (m : Nat)
    (hdt : ("nombre_encabezado_").toList ++ d.1 ∈ DTS)
    (h : capa15Step ks toks sid d ctx = (none, ctxA))
    (hstab : StableFwd sid ctxA.cache C) :
    ∃ st', capa15Step ks2 toks2 sid d ⟨ctx.ptext, ctx.pv, ctx.mapping, st0, C, m⟩ =
      (none, ⟨ctxA.ptext, ctxA.pv, ctxA.mapping, st', C, m⟩) ∧ SameMints st' st0 := by
  simp only [capa15Step] at h ⊢
  by_cases h10 : 10 ≤ (limpiarNombre d.2).length
  case neg =>
    rw [if_neg h10] at h
    rw [if_neg h10]
    have hA : ctx = ctxA := congrArg Prod.snd h
    subst hA
    exact ⟨st0, rfl, SameMints.refl st0⟩
  case pos =>
    rw [if_pos h10] at h
    rw [if_pos h10]
    rcases hbv : bindValue ks toks sid (("nombre_encabezado_").toList ++ d.1)
        (if d.1 == ("direccion").toList then ("DIRECCION").toList else ("NOMBRE").toList)
        bumpEncabezado (limpiarNombre d.2) ctx with ⟨e, p, ctx'⟩
    rw [hbv] at h
    cases e with
    | some err => exact absurd (congrArg Prod.fst h) (by simp)
    | none =>
      have hf := bindValue_fields ks toks sid (("nombre_encabezado_").toList ++ d.1)
        (if d.1 == ("direccion").toList then ("DIRECCION").toList else ("NOMBRE").toList)
        bumpEncabezado (limpiarNombre d.2) ctx
      rw [hbv] at hf
      dsimp only at hf
      obtain ⟨hpt, hpv, hmp⟩ := hf
      dsimp only at h
      rw [hpt] at h
      rcases hbr : buscarYReemplazarVariaciones ctx.ptext
        (if d.1 == ("direccion").toList then [limpiarNombre d.2]
         else generarVariacionesNombre (limpiarNombre d.2)) p with ⟨bt, bn⟩
      rw [hbr] at h
      have hkey : cacheGet C (fwdKey sid (("nombre_encabezado_").toList ++ d.1)
          (limpiarNombre d.2)) = some p := by
        have h0 := bindValue_fwd ks toks sid (("nombre_encabezado_").toList ++ d.1)
          (if d.1 == ("direccion").toList then ("DIRECCION").toList else ("NOMBRE").toList)
          bumpEncabezado (limpiarNombre d.2) ctx hbv
        have hcacheA : ctxA.cache = ctx'.cache := by
          by_cases hb : 0 < bn
          · rw [if_pos hb] at h
            injection h with hx1 hx2
            rw [← hx2]
          · rw [if_neg hb] at h
            injection h with hx1 hx2
            rw [← hx2]
        exact hstab _ _ p hdt (hcacheA ▸ h0)
      rw [bindValue_replay ks2 toks2 sid (("nombre_encabezado_").toList ++ d.1)
        (if d.1 == ("direccion").toList then ("DIRECCION").toList else ("NOMBRE").toList)
        bumpEncabezado (limpiarNombre d.2)
        ⟨ctx.ptext, ctx.pv, ctx.mapping, st0, C, m⟩ hkey]
      dsimp only
      rw [hbr]
      by_cases hb : 0 < bn
      · rw [if_pos hb] at h
        rw [if_pos hb]
        injection h with hx1 hx2
        subst hx2
        refine ⟨bumpReemplazos bn st0, ?_, SameMints.bump bn st0⟩
        dsimp only
        rw [hpv, hmp]
      · rw [if_neg hb] at h
        rw [if_neg hb]
        injection h with hx1 hx2
        subst hx2
        refine ⟨st0, ?_, SameMints.refl st0⟩
        dsimp only
        rw [hpv, hmp]

lemma capa2Step_replay (ks ks2 : KS) (toks toks2 : Nat → Text) (sid : Text)
    (ent : EntSp) (ctx ctxA : Ctx) (C : Cache) (st0 : Stats) (m : Nat)
    (h : capa2Step ks toks sid ent ctx = (none, ctxA))
    (hstab : StableFwd sid ctxA.cache C) :
    ∃ st', capa2Step ks2 toks2 sid ent ⟨ctx.ptext, ctx.pv, ctx.mapping, st0, C, m⟩ =
      (none, ⟨ctxA.ptext, ctxA.pv, ctxA.mapping, st', C, m⟩) ∧ SameMints st' st0 := by
  simp only [capa2Step] at h ⊢
  dsimp only
  by_cases h1 : ctx.pv.contains (normalizarEspacios (stripWS ent.texto)) = true
  · rw [if_pos h1] at h
    rw [if_pos h1]
    have hA : ctx = ctxA := congrArg Prod.snd h
    subst hA
    exact ⟨st0, rfl, SameMints.refl st0⟩
  · rw [if_neg h1] at h
    rw [if_neg h1]
    by_cases h2 : isException (normalizarEspacios (stripWS ent.texto)) = true
    · rw [if_pos h2] at h
      rw [if_pos h2]
      have hA : ctx = ctxA := congrArg Prod.snd h
      subst hA
      exact ⟨st0, rfl, SameMints.refl st0⟩
    · rw [if_neg h2] at h
      rw [if_neg h2]
      rcases hbv : bindValue ks toks sid (("nombre_persona").toList) (("NOMBRE").toList)
        bumpSpacy (normalizarEspacios (stripWS ent.texto)) ctx with ⟨e, p, ctx'⟩
      rw [hbv] at h
      cases e with
      | some err => exact absurd (congrArg Prod.fst h) (by simp)
      | none =>
        have hA := (congrArg Prod.snd h).symm
        dsimp only at hA
        have hf := bindValue_fields ks toks sid (("nombre_persona").toList)
          (("NOMBRE").toList) bumpSpacy (normalizarEspacios (stripWS ent.texto)) ctx
        rw [hbv] at hf
        dsimp only at hf
        obtain ⟨hpt, hpv, hmp⟩ := hf
        have hcacheA : ctxA.cache = ctx'.cache := by rw [hA]
        have hkey : cacheGet C (fwdKey sid (("nombre_persona").toList)
            (normalizarEspacios (stripWS ent.texto))) = some p := by
          have h0 := bindValue_fwd ks toks sid (("nombre_persona").toList)
            (("NOMBRE").toList) bumpSpacy (normalizarEspacios (stripWS ent.texto)) ctx hbv
          exact hstab _ _ p (by decide) (hcacheA ▸ h0)
        rw [bindValue_replay ks2 toks2 sid (("nombre_persona").toList)
          (("NOMBRE").toList) bumpSpacy (normalizarEspacios (stripWS ent.texto))
          ⟨ctx.ptext, ctx.pv, ctx.mapping, st0, C, m⟩ hkey]
        refine ⟨bumpReemplazos 1 st0, ?_, SameMints.bump 1 st0⟩
        rw [hA]
        dsimp only
        rw [hpt, hpv, hmp]

lemma capa3Step_replay (ks ks2 : KS) (toks toks2 : Nat → Text) (sid : Text)
    (nombre : Text) (ctx ctxA : Ctx) (C : Cache) (st0 : Stats) (m : Nat)
    (h : capa3Step ks toks sid nombre ctx = (none, ctxA))
    (hstab : StableFwd sid ctxA.cache C) :
    ∃ st', capa3Step ks2 toks2 sid nombre ⟨ctx.ptext, ctx.pv, ctx.mapping, st0, C, m⟩ =
      (none, ⟨ctxA.ptext, ctxA.pv, ctxA.mapping, st', C, m⟩) ∧ SameMints st' st0 := by
  simp only [capa3Step] at h ⊢
  dsimp only
  by_cases h1 : (5 ≤ (stripChars [('.' : Char)] (normalizarEspacios (stripWS nombre))).length &&
      !(ctx.pv.contains (stripChars [('.' : Char)] (normalizarEspacios (stripWS nombre))))) = true
  · rw [if_pos h1] at h
    rw [if_pos h1]
    rcases hbv : bindValue ks toks sid (("nombre_firmante").toList) (("NOMBRE").toList)
      bumpFirmantes (stripChars [('.' : Char)] (normalizarEspacios (stripWS nombre))) ctx
      with ⟨e, p, ctx'⟩
    rw [hbv] at h
    cases e with
    | some err => exact absurd (congrArg Prod.fst h) (by simp)
    | none =>
      have hA := (congrArg Prod.snd h).symm
      dsimp only at hA
      have hf := bindValue_fields ks toks sid (("nombre_firmante").toList)
        (("NOMBRE").toList) bumpFirmantes
        (stripChars [('.' : Char)] (normalizarEspacios (stripWS nombre))) ctx
      rw [hbv] at hf
      dsimp only at hf
      obtain ⟨hpt, hpv, hmp⟩ := hf
      have hcacheA : ctxA.cache = ctx'.cache := by rw [hA]
      have hkey : cacheGet C (fwdKey sid (("nombre_firmante").toList)
          (stripChars [('.' : Char)] (normalizarEspacios (stripWS nombre)))) = some p := by
        have h0 := bindValue_fwd ks toks sid (("nombre_firmante").toList)
          (("NOMBRE").toList) bumpFirmantes
          (stripChars [('.' : Char)] (normalizarEspacios (stripWS nombre))) ctx hbv
        exact hstab _ _ p (by decide) (hcacheA ▸ h0)
      rw [bindValue_replay ks2 toks2 sid (("nombre_firmante").toList)
        (("NOMBRE").toList) bumpFirmantes
        (stripChars [('.' : Char)] (normalizarEspacios (stripWS nombre)))
        ⟨ctx.ptext, ctx.pv, ctx.mapping, st0, C, m⟩ hkey]
      refine ⟨bumpReemplazos 1 st0, ?_, SameMints.bump 1 st0⟩
      rw [hA]
      dsimp only
      rw [hpt, hpv, hmp]
  · rw [if_neg h1] at h
    rw [if_neg h1]
    have hA : ctx = ctxA := congrArg Prod.snd h
    subst hA
    exact ⟨st0, rfl, SameMints.refl st0⟩

lemma capa1Go_replay (ks ks2 : KS) (toks toks2 : Nat → Text) (sid : Text) :
    ∀ dets (ctx ctxB : Ctx) (C : Cache) (st0 : Stats) (m : Nat),
      (∀ d ∈ dets, d.1 ∈ DTS) →
      capa1Go ks toks sid dets ctx = (none, ctxB) →
      StableFwd sid ctxB.cache C →
      ∃ st', capa1Go ks2 toks2 sid dets ⟨ctx.ptext, ctx.pv, ctx.mapping, st0, C, m⟩ =
        (none, ⟨ctxB.ptext, ctxB.pv, ctxB.mapping, st', C, m⟩) ∧ SameMints st' st0 := by
  intro dets
  induction dets with
  | nil =>
    intro ctx ctxB C st0 m _ h _
    simp only [capa1Go] at h ⊢
    have hA : ctx = ctxB := congrArg Prod.snd h
    subst hA
    exact ⟨st0, rfl, SameMints.refl st0⟩
  | cons d rest ih =>
    intro ctx ctxB C st0 m hdts h hstab
    simp only [capa1Go] at h ⊢
    rcases hst : capa1Step ks toks sid d ctx with ⟨e, ctx1⟩
    rw [hst] at h
    cases e with
    | some err =>
      dsimp only at h
      exact absurd (congrArg Prod.fst h) (by simp)
    | none =>
      dsimp only at h
      have hs1 : StableFwd sid ctx1.cache C := by
        have hrest := capa1Go_stableFwd ks toks sid rest ctx1
        rw [h] at hrest
        exact StableFwd.chain hrest hstab
      obtain ⟨st1, hstep, hm1⟩ := capa1Step_replay ks ks2 toks toks2 sid d ctx ctx1 C
        st0 m (hdts d (by simp)) hst hs1
      rw [hstep]
      dsimp only
      obtain ⟨st2, hrest2, hm2⟩ := ih ctx1 ctxB C st1 m
        (fun x hx => hdts x (List.mem_cons_of_mem _ hx)) h hstab
      rw [hrest2]
      exact ⟨st2, rfl, SameMints.trans hm2 hm1⟩

lemma capa15Go_replay (ks ks2 : KS) (toks toks2 : Nat → Text) (sid : Text) :
    ∀ dets (ctx ctxB : Ctx) (C : Cache) (st0 : Stats) (m : Nat),
      (∀ d ∈ dets, ("nombre_encabezado_").toList ++ d.1 ∈ DTS) →
      capa15Go ks toks sid dets ctx = (none, ctxB) →
      StableFwd sid ctxB.cache C →
      ∃ st', capa15Go ks2 toks2 sid dets ⟨ctx.ptext, ctx.pv, ctx.mapping, st0, C, m⟩ =
        (none, ⟨ctxB.ptext, ctxB.pv, ctxB.mapping, st', C, m⟩) ∧ SameMints st' st0 := by
  intro dets
  induction dets with
  | nil =>
    intro ctx ctxB C st0 m _ h _
    simp only [capa15Go] at h ⊢
    have hA : ctx = ctxB := congrArg Prod.snd h
    subst hA
    exact ⟨st0, rfl, SameMints.refl st0⟩
  | cons d rest ih =>
    intro ctx ctxB C st0 m hdts h hstab
    simp only [capa15Go] at h ⊢
    rcases hst : capa15Step ks toks sid d ctx with ⟨e, ctx1⟩
    rw [hst] at h
    cases e with
    | some err =>
      dsimp only at h
      exact absurd (congrArg Prod.fst h) (by simp)
    | none =>
      dsimp only at h
      have hs1 : StableFwd sid ctx1.cache C := by
        have hrest := capa15Go_stableFwd ks toks sid rest ctx1
        rw [h] at hrest
        exact StableFwd.chain hrest hstab
      obtain ⟨st1, hstep, hm1⟩ := capa15Step_replay ks ks2 toks toks2 sid d ctx ctx1 C
        st0 m (hdts d (by simp)) hst hs1
      rw [hstep]
      dsimp only
      obtain ⟨st2, hrest2, hm2⟩ := ih ctx1 ctxB C st1 m
        (fun x hx => hdts x (List.mem_cons_of_mem _ hx)) h hstab
      rw [hrest2]
      exact ⟨st2, rfl, SameMints.trans hm2 hm1⟩

lemma capa2Go_replay (ks ks2 : KS) (toks toks2 : Nat → Text) (sid : Text) :
    ∀ ents (ctx ctxB : Ctx) (C : Cache) (st0 : Stats) (m : Nat),
      capa2Go ks toks sid ents ctx = (none, ctxB) →
      StableFwd sid ctxB.cache C →
      ∃ st', capa2Go ks2 toks2 sid ents ⟨ctx.ptext, ctx.pv, ctx.mapping, st0, C, m⟩ =
        (none, ⟨ctxB.ptext, ctxB.pv, ctxB.mapping, st', C, m⟩) ∧ SameMints st' st0 := by
  intro ents
  induction ents with
  | nil =>
    intro ctx ctxB C st0 m h _
    simp only [capa2Go] at h ⊢
    have hA : ctx = ctxB := congrArg Prod.snd h
    subst hA
    exact ⟨st0, rfl, SameMints.refl st0⟩
  | cons ent rest ih =>
    intro ctx ctxB C st0 m h hstab
    simp only [capa2Go] at h ⊢
    rcases hst : capa2Step ks toks sid ent ctx with ⟨e, ctx1⟩
    rw [hst] at h
    cases e with
    | some err =>
      dsimp only at h
      exact absurd (congrArg Prod.fst h) (by simp)
    | none =>
      dsimp only at h
      have hs1 : StableFwd sid ctx1.cache C := by
        have hrest := capa2Go_stableFwd ks toks sid rest ctx1
        rw [h] at hrest
        exact StableFwd.chain hrest hstab
      obtain ⟨st1, hstep, hm1⟩ := capa2Step_replay ks ks2 toks toks2 sid ent ctx ctx1 C
        st0 m hst hs1
      rw [hstep]
      dsimp only
      obtain ⟨st2, hrest2, hm2⟩ := ih ctx1 ctxB C st1 m h hstab
      rw [hrest2]
      exact ⟨st2, rfl, SameMints.trans hm2 hm1⟩

lemma capa3Go_replay (ks ks2 : KS) (toks toks2 : Nat → Text) (sid : Text) :
    ∀ dets (ctx ctxB : Ctx) (C : Cache) (st0 : Stats) (m : Nat),
      capa3Go ks toks sid dets ctx = (none, ctxB) →
      StableFwd sid ctxB.cache C →
      ∃ st', capa3Go ks2 toks2 sid dets ⟨ctx.ptext, ctx.pv, ctx.mapping, st0, C, m⟩ =
        (none, ⟨ctxB.ptext, ctxB.pv, ctxB.mapping, st', C, m⟩) ∧ SameMints st' st0 := by
  intro dets
  induction dets with
  | nil =>
    intro ctx ctxB C st0 m h _
    simp only [capa3Go] at h ⊢
    have hA : ctx = ctxB := congrArg Prod.snd h
    subst hA
    exact ⟨st0, rfl, SameMints.refl st0⟩
  | cons nombre rest ih =>
    intro ctx ctxB C st0 m h hstab
    simp only [capa3Go] at h ⊢
    rcases hst : capa3Step ks toks sid nombre ctx with ⟨e, ctx1⟩
    rw [hst] at h
    cases e with
    | some err =>
      dsimp only at h
      exact absurd (congrArg Prod.fst h) (by simp)
    | none =>
      dsimp only at h
      have hs1 : StableFwd sid ctx1.cache C := by
        have hrest := capa3Go_stableFwd ks toks sid rest ctx1
        rw [h] at hrest
        exact StableFwd.chain hrest hstab
      obtain ⟨st1, hstep, hm1⟩ := capa3Step_replay ks ks2 toks toks2 sid nombre ctx ctx1 C
        st0 m hst hs1
      rw [hstep]
      dsimp only
      obtain ⟨st2, hrest2, hm2⟩ := ih ctx1 ctxB C st1 m h hstab
      rw [hrest2]
      exact ⟨st2, rfl, SameMints.trans hm2 hm1⟩

/-- A second `pseudonymize_text` call over the same text, starting from the
final cache of a successful first call, returns the same text, mapping and
processed set, leaves the cache untouched, consumes no uuid draw, and keeps
every per-layer mint counter at zero (key service and uuid source of the
second call are arbitrary: neither is consulted on a cache hit). -/
lemma pseudonymizeText_replay (ks ks2 : KS) (nlp : Text → List EntSp)
    (toks toks2 : Nat → Text) (text sid : Text) (c0 : Cache) (n0 : Nat)
    (ctxF : Ctx) (m : Nat)
    (h : pseudonymizeText ks nlp toks text sid c0 n0 = (none, ctxF)) :
    ∃ st', pseudonymizeText ks2 nlp toks2 text sid ctxF.cache m =
      (none, ⟨ctxF.ptext, ctxF.pv, ctxF.mapping, st', ctxF.cache, m⟩) ∧
      SameMints st' initStats := by
  unfold pseudonymizeText at h ⊢
  rcases h1 : capa1Go ks toks sid (capa1Dets text) ⟨text, [], [], initStats, c0, n0⟩
    with ⟨e1, ctx1⟩
  rw [h1] at h
  cases e1 with
  | some err => exact absurd (congrArg Prod.fst h) (by simp [seqE])
  | none =>
    simp only [seqE] at h
    rcases h2 : capa15Go ks toks sid (headerDets text) ctx1 with ⟨e2, ctx2⟩
    rw [h2] at h
    cases e2 with
    | some err => exact absurd (congrArg Prod.fst h) (by simp [seqE])
    | none =>
      simp only [seqE] at h
      rcases h3 : capa2Go ks toks sid (detectarEntidadesSpacy nlp text) ctx2 with ⟨e3, ctx3⟩
      rw [h3] at h
      cases e3 with
      | some err => exact absurd (congrArg Prod.fst h) (by simp [seqE])
      | none =>
        simp only [seqE] at h
        rcases h4 : capa3Go ks toks sid (firmantesDets text) ctx3 with ⟨e4, ctx4⟩
        rw [h4] at h
        cases e4 with
        | some err => exact absurd (congrArg Prod.fst h) (by simp [seqE])
        | none =>
          simp only [seqE] at h
          injection h with he hF
          subst hF
          dsimp only
          have s4 : StableFwd sid ctx4.cache ctx4.cache := StableFwd.rfl _ _
          have s3 : StableFwd sid ctx3.cache ctx4.cache := by
            have hx := capa3Go_stableFwd ks toks sid (firmantesDets text) ctx3
            rw [h4] at hx
            exact hx
          have s2 : StableFwd sid ctx2.cache ctx4.cache := by
            have hx := capa2Go_stableFwd ks toks sid (detectarEntidadesSpacy nlp text) ctx2
            rw [h3] at hx
            exact StableFwd.chain hx s3
          have s1 : StableFwd sid ctx1.cache ctx4.cache := by
            have hx := capa15Go_stableFwd ks toks sid (headerDets text) ctx1
            rw [h2] at hx
            exact StableFwd.chain hx s2
          obtain ⟨st1, hr1, hm1⟩ := capa1Go_replay ks ks2 toks toks2 sid (capa1Dets text)
            ⟨text, [], [], initStats, c0, n0⟩ ctx1 ctx4.cache initStats m
            (capa1Dets_dts text) h1 s1
          dsimp only at hr1
          rw [hr1]
          simp only [seqE]
          obtain ⟨st2, hr2, hm2⟩ := capa15Go_replay ks ks2 toks toks2 sid (headerDets text)
            ctx1 ctx2 ctx4.cache st1 m (headerDets_dts text) h2 s2
          rw [hr2]
          simp only [seqE]
          obtain ⟨st3, hr3, hm3⟩ := capa2Go_replay ks ks2 toks toks2 sid
            (detectarEntidadesSpacy nlp text) ctx2 ctx3 ctx4.cache st2 m h3 s3
          rw [hr3]
          simp only [seqE]
          obtain ⟨st4, hr4, hm4⟩ := capa3Go_replay ks ks2 toks toks2 sid
            (firmantesDets text) ctx3 ctx4 ctx4.cache st3 m h4 s4
          rw [hr4]
          simp only [seqE]
          refine ⟨{ st4 with total_unique := ctx4.mapping.length }, rfl, ?_⟩
          have hchain := SameMints.trans (SameMints.trans (SameMints.trans hm4 hm3) hm2) hm1
          exact ⟨hchain.1, hchain.2.1, hchain.2.2.1, hchain.2.2.2⟩

/-! ### The mint invariant: every forward binding points to a freshly drawn
token whose reverse binding holds the encryption of the bound value -/

/-- The prefixes `generate_pseudonym` is ever called with. -/
def PFXS : List Text :=
  [("RUC").toList, ("CEDULA").toList, ("EMAIL").toList, ("TELEFONO").toList,
   ("DIRECCION").toList, ("NOMBRE").toList, ("PSN").toList]

lemma prefixFor_mem (dt : Text) : prefixFor dt ∈ PFXS := by
  unfold prefixFor
  split
  · decide
  · split
    · decide
    · split
      · decide
      · split
        · decide
        · split
          · decide
          · decide

lemma bindValue_cnt_le (ks : KS) (toks : Nat → Text) (sid dt pfx : Text)
    (bump : Stats → Stats) (v : Text) (ctx : Ctx) :
    ctx.cnt ≤ (bindValue ks toks sid dt pfx bump v ctx).2.2.cnt := by
  unfold bindValue
  cases cacheGet ctx.cache (fwdKey sid dt v) with
  | some p => exact Nat.le_refl _
  | none => cases ks.enc v <;> exact Nat.le_succ _

lemma capa1Step_cnt_le (ks : KS) (toks : Nat → Text) (sid : Text)
    (d : Text × Text) (ctx : Ctx) :
    ctx.cnt ≤ (capa1Step ks toks sid d ctx).2.cnt := by
  have hb := bindValue_cnt_le ks toks sid d.1 (prefixFor d.1) bumpRegex (stripWS d.2) ctx
  simp only [capa1Step]
  split
  · exact Nat.le_refl _
  · split
    · exact Nat.le_refl _
    · rcases hbv : bindValue ks toks sid d.1 (prefixFor d.1) bumpRegex (stripWS d.2) ctx
        with ⟨e, p, ctx'⟩
      rw [hbv] at hb
      cases e with
      | some err => exact hb
      | none => exact hb

lemma capa15Step_cnt_le (ks : KS) (toks : Nat → Text) (sid : Text)
    (d : Text × Text) (ctx : Ctx) :
    ctx.cnt ≤ (capa15Step ks toks sid d ctx).2.cnt := by
  simp only [capa15Step]
  split
  · generalize (if d.1 == ("direccion").toList then [limpiarNombre d.2]
      else generarVariacionesNombre (limpiarNombre d.2)) = vars
    generalize (if d.1 == ("direccion").toList then ("DIRECCION").toList
      else ("NOMBRE").toList) = pf
    have hb := bindValue_cnt_le ks toks sid (("nombre_encabezado_").toList ++ d.1) pf
      bumpEncabezado (limpiarNombre d.2) ctx
    rcases hbv : bindValue ks toks sid (("nombre_encabezado_").toList ++ d.1) pf
      bumpEncabezado (limpiarNombre d.2) ctx with ⟨e, p, ctx'⟩
    rw [hbv] at hb
    cases e with
    | some err => exact hb
    | none =>
      rcases hbr : buscarYReemplazarVariaciones ctx'.ptext vars p with ⟨bt, bn⟩
      simp only [hbr]
      by_cases h0 : 0 < bn
      · rw [if_pos h0]; exact hb
      · rw [if_neg h0]; exact hb
  · exact Nat.le_refl _

lemma capa2Step_cnt_le (ks : KS) (toks : Nat → Text) (sid : Text)
    (ent : EntSp) (ctx : Ctx) :
    ctx.cnt ≤ (capa2Step ks toks sid ent ctx).2.cnt := by
  have hb := bindValue_cnt_le ks toks sid (("nombre_persona").toList)
    (("NOMBRE").toList) bumpSpacy (normalizarEspacios (stripWS ent.texto)) ctx
  simp only [capa2Step]
  split
  · exact Nat.le_refl _
  · split
    · exact Nat.le_refl _
    · rcases hbv : bindValue ks toks sid (("nombre_persona").toList)
        (("NOMBRE").toList) bumpSpacy (normalizarEspacios (stripWS ent.texto)) ctx
        with ⟨e, p, ctx'⟩
      rw [hbv] at hb
      cases e with
      | some err => exact hb
      | none => exact hb

lemma capa3Step_cnt_le (ks : KS) (toks : Nat → Text) (sid : Text)
    (nombre : Text) (ctx : Ctx) :
    ctx.cnt ≤ (capa3Step ks toks sid nombre ctx).2.cnt := by
  have hb := bindValue_cnt_le ks toks sid (("nombre_firmante").toList)
    (("NOMBRE").toList) bumpFirmantes
    (stripChars [('.' : Char)] (normalizarEspacios (stripWS nombre))) ctx
  simp only [capa3Step]
  split
  · rcases hbv : bindValue ks toks sid (("nombre_firmante").toList)
      (("NOMBRE").toList) bumpFirmantes
      (stripChars [('.' : Char)] (normalizarEspacios (stripWS nombre))) ctx
      with ⟨e, p, ctx'⟩
    rw [hbv] at hb
    cases e with
    | some err => exact hb
    | none => exact hb
  · exact Nat.le_refl _

lemma capa1Go_cnt_le (ks : KS) (toks : Nat → Text) (sid : Text) :
    ∀ dets ctx, ctx.cnt ≤ (capa1Go ks toks sid dets ctx).2.cnt := by
  intro dets
  induction dets with
  | nil => intro ctx; exact Nat.le_refl _
  | cons d rest ih =>
    intro ctx
    have h1 := capa1Step_cnt_le ks toks sid d ctx
    rcases hst : capa1Step ks toks sid d ctx with ⟨e, ctx1⟩
    rw [hst] at h1
    cases e with
    | some err => simp only [capa1Go, hst]; exact h1
    | none => simp only [capa1Go, hst]; exact Nat.le_trans h1 (ih ctx1)

lemma capa15Go_cnt_le (ks : KS) (toks : Nat → Text) (sid : Text) :
    ∀ dets ctx, ctx.cnt ≤ (capa15Go ks toks sid dets ctx).2.cnt := by
  intro dets
  induction dets with
  | nil => intro ctx; exact Nat.le_refl _
  | cons d rest ih =>
    intro ctx
    have h1 := capa15Step_cnt_le ks toks sid d ctx
    rcases hst : capa15Step ks toks sid d ctx with ⟨e, ctx1⟩
    rw [hst] at h1
    cases e with
    | some err => simp only [capa15Go, hst]; exact h1
    | none => simp only [capa15Go, hst]; exact Nat.le_trans h1 (ih ctx1)

lemma capa2Go_cnt_le (ks : KS) (toks : Nat → Text) (sid : Text) :
    ∀ ents ctx, ctx.cnt ≤ (capa2Go ks toks sid ents ctx).2.cnt := by
  intro ents
  induction ents with
  | nil => intro ctx; exact Nat.le_refl _
  | cons ent rest ih =>
    intro ctx
    have h1 := capa2Step_cnt_le ks toks sid ent ctx
    rcases hst : capa2Step ks toks sid ent ctx with ⟨e, ctx1⟩
    rw [hst] at h1
    cases e with
    | some err => simp only [capa2Go, hst]; exact h1
    | none => simp only [capa2Go, hst]; exact Nat.le_trans h1 (ih ctx1)

lemma capa3Go_cnt_le (ks : KS) (toks : Nat → Text) (sid : Text) :
    ∀ dets ctx, ctx.cnt ≤ (capa3Go ks toks sid dets ctx).2.cnt := by
  intro dets
  induction dets with
  | nil => intro ctx; exact Nat.le_refl _
  | cons nombre rest ih =>
    intro ctx
    have h1 := capa3Step_cnt_le ks toks sid nombre ctx
    rcases hst : capa3Step ks toks sid nombre ctx with ⟨e, ctx1⟩
    rw [hst] at h1
    cases e with
    | some err => simp only [capa3Go, hst]; exact h1
    | none => simp only [capa3Go, hst]; exact Nat.le_trans h1 (ih ctx1)

/-- Two mints at distinct draw indices yield distinct tokens (the draws are
distinct 8-character strings, so the `_`-suffixes force equality of draws). -/
lemma mint_tok_ne (toks : Nat → Text) (N : Nat)
    (hdist : ∀ a b, a < N → b < N → toks a = toks b → a = b)
    (hlen : ∀ n, n < N → (toks n).length = 8)
    {pfx1 pfx2 : Text} {n1 n2 : Nat}
    (h1 : n1 < N) (h2 : n2 < N) (hne : n1 ≠ n2) :
    pfx1 ++ '_' :: toks n1 ≠ pfx2 ++ '_' :: toks n2 := by
  intro heq
  have hsfx : ('_' :: toks n1).length = ('_' :: toks n2).length := by
    simp [hlen n1 h1, hlen n2 h2]
  obtain ⟨hpp, hss⟩ := List.append_inj' heq hsfx
  have hts : toks n1 = toks n2 := by
    injection hss
  exact hne (hdist n1 n2 h1 h2 hts)

/-- Invariant of a run: every forward binding of the session carries a token
`PFX_<draw>` minted at some consumed draw index, and its reverse binding holds
exactly the encryption of the bound value. -/
def MintInv (ks : KS) (toks : Nat → Text) (sid : Text) (c : Cache) (cnt : Nat) : Prop :=
  ∀ dt v p, dt ∈ DTS → cacheGet c (fwdKey sid dt v) = some p →
    ∃ pfx n ev, pfx ∈ PFXS ∧ n < cnt ∧ p = pfx ++ '_' :: toks n ∧
      ks.enc v = Except.ok ev ∧ cacheGet c (revKey sid p) = some ev

lemma bindValue_mintInv (ks : KS) (toks : Nat → Text) (N : Nat)
    (hdist : ∀ a b, a < N → b < N → toks a = toks b → a = b)
    (hlen : ∀ n, n < N → (toks n).length = 8)
    (sid dt pfx : Text) (bump : Stats → Stats) (v : Text) (ctx : Ctx)
    (hdt : dt ∈ DTS) (hpfx : pfx ∈ PFXS)
    (hn : (bindValue ks toks sid dt pfx bump v ctx).2.2.cnt ≤ N)
    (hinv : MintInv ks toks sid ctx.cache ctx.cnt) :
    MintInv ks toks sid (bindValue ks toks sid dt pfx bump v ctx).2.2.cache
      (bindValue ks toks sid dt pfx bump v ctx).2.2.cnt := by
  unfold bindValue at hn ⊢
  cases hlk : cacheGet ctx.cache (fwdKey sid dt v) with
  | some q => exact hinv
  | none =>
    rw [hlk] at hn
    cases henc : ks.enc v with
    | error e =>
      rw [henc] at hn
      intro dt2 v2 p2 hdt2 hget
      obtain ⟨pfx0, n0, ev0, hm, hlt, hpeq, hencv, hrev⟩ := hinv dt2 v2 p2 hdt2 hget
      exact ⟨pfx0, n0, ev0, hm, Nat.lt_succ_of_lt hlt, hpeq, hencv, hrev⟩
    | ok ev =>
      rw [henc] at hn
      dsimp only at hn ⊢
      intro dt2 v2 p2 hdt2 hget
      by_cases hk : fwdKey sid dt v = fwdKey sid dt2 v2
      · rw [← hk, cacheGet_set_self] at hget
        have hp2 : generatePseudonym toks ctx.cnt pfx = p2 := Option.some.inj hget
        obtain ⟨hdd, hvv⟩ := fwdKey_inj sid hdt hdt2 hk
        subst hdd
        subst hvv
        subst hp2
        refine ⟨pfx, ctx.cnt, ev, hpfx, Nat.lt_succ_self _, rfl, henc, ?_⟩
        rw [cacheGet_set_ne _ _ (fwdKey_ne_revKey sid dt v _ hdt), cacheGet_set_self]
      · rw [cacheGet_set_ne _ _ hk,
          cacheGet_set_ne _ _ ((fwdKey_ne_revKey sid dt2 v2 _ hdt2).symm)] at hget
        obtain ⟨pfx0, n0, ev0, hm, hlt, hpeq, hencv, hrev⟩ := hinv dt2 v2 p2 hdt2 hget
        refine ⟨pfx0, n0, ev0, hm, Nat.lt_succ_of_lt hlt, hpeq, hencv, ?_⟩
        rw [cacheGet_set_ne _ _ (fwdKey_ne_revKey sid dt v _ hdt)]
        rw [cacheGet_set_ne _ _ ?hrevne]
        · exact hrev
        case hrevne =>
          intro hre
          have hpp : generatePseudonym toks ctx.cnt pfx = p2 := revKey_inj sid hre
          rw [hpeq] at hpp
          have hcN : ctx.cnt < N := Nat.lt_of_succ_le hn
          have hn0N : n0 < N := Nat.lt_trans hlt hcN
          exact mint_tok_ne toks N hdist hlen hcN hn0N
            (Nat.ne_of_gt hlt) hpp

lemma capa1Step_mintInv (ks : KS) (toks : Nat → Text) (N : Nat)
    (hdist : ∀ a b, a < N → b < N → toks a = toks b → a = b)
    (hlen : ∀ n, n < N → (toks n).length = 8)
    (sid : Text) (d : Text × Text) (ctx : Ctx) (hdt : d.1 ∈ DTS)
    (hn : (capa1Step ks toks sid d ctx).2.cnt ≤ N)
    (hinv : MintInv ks toks sid ctx.cache ctx.cnt) :
    MintInv ks toks sid (capa1Step ks toks sid d ctx).2.cache
      (capa1Step ks toks sid d ctx).2.cnt := by
  simp only [capa1Step] at hn ⊢
  by_cases h1 : ctx.pv.contains (stripWS d.2) = true
  · rw [if_pos h1]; exact hinv
  · rw [if_neg h1] at hn ⊢
    by_cases h2 : isException (stripWS d.2) = true
    · rw [if_pos h2]; exact hinv
    · rw [if_neg h2] at hn ⊢
      rcases hbv : bindValue ks toks sid d.1 (prefixFor d.1) bumpRegex (stripWS d.2) ctx
        with ⟨e, p, ctx'⟩
      rw [hbv] at hn
      cases e with
      | some err =>
        have hb := bindValue_mintInv ks toks N hdist hlen sid d.1 (prefixFor d.1)
          bumpRegex (stripWS d.2) ctx hdt (prefixFor_mem d.1) (by rw [hbv]; exact hn) hinv
        rw [hbv] at hb
        exact hb
      | none =>
        have hb := bindValue_mintInv ks toks N hdist hlen sid d.1 (prefixFor d.1)
          bumpRegex (stripWS d.2) ctx hdt (prefixFor_mem d.1) (by rw [hbv]; exact hn) hinv
        rw [hbv] at hb
        exact hb

set_option maxHeartbeats 1600000 in
lemma capa15Step_mintInv (ks : KS) (toks : Nat → Text) (N : Nat)
    (hdist : ∀ a b, a < N → b < N → toks a = toks b → a = b)
    (hlen : ∀ n, n < N → (toks n).length = 8)
    (sid : Text) (d : Text × Text) (ctx : Ctx)
    (hdt : ("nombre_encabezado_").toList ++ d.1 ∈ DTS)
    (hn : (capa15Step ks toks sid d ctx).2.cnt ≤ N)
    (hinv : MintInv ks toks sid ctx.cache ctx.cnt) :
    MintInv ks toks sid (capa15Step ks toks sid d ctx).2.cache
      (capa15Step ks toks sid d ctx).2.cnt := by
  simp only [capa15Step] at hn ⊢
  by_cases h10 : 10 ≤ (limpiarNombre d.2).length
  case neg =>
    rw [if_neg h10]
    exact hinv
  case pos =>
    rw [if_pos h10] at hn ⊢
    have hpf : (if d.1 == ("direccion").toList then ("DIRECCION").toList
        else ("NOMBRE").toList) ∈ PFXS := by
      by_cases hdir : d.1 == ("direccion").toList
      · rw [if_pos hdir]; decide
      · rw [if_neg hdir]; decide
    revert hn
    generalize (if d.1 == ("direccion").toList then [limpiarNombre d.2]
      else generarVariacionesNombre (limpiarNombre d.2)) = vars
    generalize hq : (if d.1 == ("direccion").toList then ("DIRECCION").toList
      else ("NOMBRE").toList) = pf
    rw [hq] at hpf
    intro hn
    rcases hbv : bindValue ks toks sid (("nombre_encabezado_").toList ++ d.1) pf
      bumpEncabezado (limpiarNombre d.2) ctx with ⟨e, p, ctx'⟩
    rw [hbv] at hn
    cases e with
    | some err =>
      have hb := bindValue_mintInv ks toks N hdist hlen sid
        (("nombre_encabezado_").toList ++ d.1) pf bumpEncabezado (limpiarNombre d.2) ctx
        hdt hpf (by rw [hbv]; exact hn) hinv
      rw [hbv] at hb
      exact hb
    | none =>
      rcases hbr : buscarYReemplazarVariaciones ctx'.ptext vars p with ⟨bt, bn⟩
      simp only [hbr] at hn
      dsimp only
      rw [hbr]
      by_cases h0 : 0 < bn
      · rw [if_pos h0] at hn ⊢
        have hb := bindValue_mintInv ks toks N hdist hlen sid
          (("nombre_encabezado_").toList ++ d.1) pf bumpEncabezado (limpiarNombre d.2) ctx
          hdt hpf (by rw [hbv]; exact hn) hinv
        rw [hbv] at hb
        exact hb
      · rw [if_neg h0] at hn ⊢
        have hb := bindValue_mintInv ks toks N hdist hlen sid
          (("nombre_encabezado_").toList ++ d.1) pf bumpEncabezado (limpiarNombre d.2) ctx
          hdt hpf (by rw [hbv]; exact hn) hinv
        rw [hbv] at hb
        exact hb

set_option maxHeartbeats 1600000 in
lemma capa2Step_mintInv (ks : KS) (toks : Nat → Text) (N : Nat)
    (hdist : ∀ a b, a < N → b < N → toks a = toks b → a = b)
    (hlen : ∀ n, n < N → (toks n).length = 8)
    (sid : Text) (ent : EntSp) (ctx : Ctx)
    (hn : (capa2Step ks toks sid ent ctx).2.cnt ≤ N)
    (hinv : MintInv ks toks sid ctx.cache ctx.cnt) :
    MintInv ks toks sid (capa2Step ks toks sid ent ctx).2.cache
      (capa2Step ks toks sid ent ctx).2.cnt := by
  simp only [capa2Step] at hn ⊢
  by_cases h1 : ctx.pv.contains (normalizarEspacios (stripWS ent.texto)) = true
  · rw [if_pos h1]; exact hinv
  · rw [if_neg h1] at hn ⊢
    by_cases h2 : isException (normalizarEspacios (stripWS ent.texto)) = true
    · rw [if_pos h2]; exact hinv
    · rw [if_neg h2] at hn ⊢
      rcases hbv : bindValue ks toks sid (("nombre_persona").toList) (("NOMBRE").toList)
        bumpSpacy (normalizarEspacios (stripWS ent.texto)) ctx with ⟨e, p, ctx'⟩
      rw [hbv] at hn
      cases e with
      | some err =>
        have hb := bindValue_mintInv ks toks N hdist hlen sid (("nombre_persona").toList)
          (("NOMBRE").toList) bumpSpacy (normalizarEspacios (stripWS ent.texto)) ctx
          (by decide) (by decide) (by rw [hbv]; exact hn) hinv
        rw [hbv] at hb
        exact hb
      | none =>
        have hb := bindValue_mintInv ks toks N hdist hlen sid (("nombre_persona").toList)
          (("NOMBRE").toList) bumpSpacy (normalizarEspacios (stripWS ent.texto)) ctx
          (by decide) (by decide) (by rw [hbv]; exact hn) hinv
        rw [hbv] at hb
        exact hb

set_option maxHeartbeats 1600000 in
lemma capa3Step_mintInv (ks : KS) (toks : Nat → Text) (N : Nat)
    (hdist : ∀ a b, a < N → b < N → toks a = toks b → a = b)
    (hlen : ∀ n, n < N → (toks n).length = 8)
    (sid : Text) (nombre : Text) (ctx : Ctx)
    (hn : (capa3Step ks toks sid nombre ctx).2.cnt ≤ N)
    (hinv : MintInv ks toks sid ctx.cache ctx.cnt) :
    MintInv ks toks sid (capa3Step ks toks sid nombre ctx).2.cache
      (capa3Step ks toks sid nombre ctx).2.cnt := by
  simp only [capa3Step] at hn ⊢
  by_cases h1 : (5 ≤ (stripChars [('.' : Char)] (normalizarEspacios (stripWS nombre))).length &&
      !(ctx.pv.contains (stripChars [('.' : Char)] (normalizarEspacios (stripWS nombre))))) = true
  · rw [if_pos h1] at hn ⊢
    rcases hbv : bindValue ks toks sid (("nombre_firmante").toList) (("NOMBRE").toList)
      bumpFirmantes (stripChars [('.' : Char)] (normalizarEspacios (stripWS nombre))) ctx
      with ⟨e, p, ctx'⟩
    rw [hbv] at hn
    cases e with
    | some err =>
      have hb := bindValue_mintInv ks toks N hdist hlen sid (("nombre_firmante").toList)
        (("NOMBRE").toList) bumpFirmantes
        (stripChars [('.' : Char)] (normalizarEspacios (stripWS nombre))) ctx
        (by decide) (by decide) (by rw [hbv]; exact hn) hinv
      rw [hbv] at hb
      exact hb
    | none =>
      have hb := bindValue_mintInv ks toks N hdist hlen sid (("nombre_firmante").toList)
        (("NOMBRE").toList) bumpFirmantes
        (stripChars [('.' : Char)] (normalizarEspacios (stripWS nombre))) ctx
        (by decide) (by decide) (by rw [hbv]; exact hn) hinv
      rw [hbv] at hb
      exact hb
  · rw [if_neg h1]; exact hinv

set_option maxHeartbeats 1600000 in
lemma capa1Go_mintInv (ks : KS) (toks : Nat → Text) (N : Nat)
    (hdist : ∀ a b, a < N → b < N → toks a = toks b → a = b)
    (hlen : ∀ n, n < N → (toks n).length = 8) (sid : Text) :
    ∀ dets (ctx : Ctx), (∀ d ∈ dets, d.1 ∈ DTS) →
      (capa1Go ks toks sid dets ctx).2.cnt ≤ N →
      MintInv ks toks sid ctx.cache ctx.cnt →
      MintInv ks toks sid (capa1Go ks toks sid dets ctx).2.cache
        (capa1Go ks toks sid dets ctx).2.cnt := by
  intro dets
  induction dets with
  | nil => intro ctx _ _ hinv; exact hinv
  | cons d rest ih =>
    intro ctx hdts hn hinv
    have hd := hdts d (List.mem_cons_self d rest)
    rcases hst : capa1Step ks toks sid d ctx with ⟨e, ctx1⟩
    cases e with
    | some err =>
      simp only [capa1Go, hst] at hn ⊢
      have hb := capa1Step_mintInv ks toks N hdist hlen sid d ctx hd
        (by rw [hst]; exact hn) hinv
      rw [hst] at hb
      exact hb
    | none =>
      simp only [capa1Go, hst] at hn ⊢
      have hle := capa1Go_cnt_le ks toks sid rest ctx1
      have hb := capa1Step_mintInv ks toks N hdist hlen sid d ctx hd
        (by rw [hst]; exact Nat.le_trans hle hn) hinv
      rw [hst] at hb
      exact ih ctx1 (fun d2 h2 => hdts d2 (List.mem_cons_of_mem d h2)) hn hb

set_option maxHeartbeats 8000000 in
lemma capa15Go_mintInv (ks : KS) (toks : Nat → Text) (N : Nat)
    (hdist : ∀ a b, a < N → b < N → toks a = toks b → a = b)
    (hlen : ∀ n, n < N → (toks n).length = 8) (sid : Text) :
    ∀ dets (ctx : Ctx), (∀ d ∈ dets, ("nombre_encabezado_").toList ++ d.1 ∈ DTS) →
      (capa15Go ks toks sid dets ctx).2.cnt ≤ N →
      MintInv ks toks sid ctx.cache ctx.cnt →
      MintInv ks toks sid (capa15Go ks toks sid dets ctx).2.cache
        (capa15Go ks toks sid dets ctx).2.cnt := by
  intro dets
  induction dets with
  | nil => intro ctx _ _ hinv; exact hinv
  | cons d rest ih =>
    intro ctx hdts hn hinv
    have hd := hdts d (List.mem_cons_self d rest)
    rcases hst : capa15Step ks toks sid d ctx with ⟨e, ctx1⟩
    cases e with
    | some err =>
      simp only [capa15Go, hst] at hn ⊢
      have hb := capa15Step_mintInv ks toks N hdist hlen sid d ctx hd
        (by rw [hst]; exact hn) hinv
      rw [hst] at hb
      exact hb
    | none =>
      simp only [capa15Go, hst] at hn ⊢
      have hle := capa15Go_cnt_le ks toks sid rest ctx1
      have hb := capa15Step_mintInv ks toks N hdist hlen sid d ctx hd
        (by rw [hst]; exact Nat.le_trans hle hn) hinv
      rw [hst] at hb
      exact ih ctx1 (fun d2 h2 => hdts d2 (List.mem_cons_of_mem d h2)) hn hb

set_option maxHeartbeats 1600000 in
lemma capa2Go_mintInv (ks : KS) (toks : Nat → Text) (N : Nat)
    (hdist : ∀ a b, a < N → b < N → toks a = toks b → a = b)
    (hlen : ∀ n, n < N → (toks n).length = 8) (sid : Text) :
    ∀ ents (ctx : Ctx),
      (capa2Go ks toks sid ents ctx).2.cnt ≤ N →
      MintInv ks toks sid ctx.cache ctx.cnt →
      MintInv ks toks sid (capa2Go ks toks sid ents ctx).2.cache
        (capa2Go ks toks sid ents ctx).2.cnt := by
  intro ents
  induction ents with
  | nil => intro ctx _ hinv; exact hinv
  | cons ent rest ih =>
    intro ctx hn hinv
    rcases hst : capa2Step ks toks sid ent ctx with ⟨e, ctx1⟩
    cases e with
    | some err =>
      simp only [capa2Go, hst] at hn ⊢
      have hb := capa2Step_mintInv ks toks N hdist hlen sid ent ctx
        (by rw [hst]; exact hn) hinv
      rw [hst] at hb
      exact hb
    | none =>
      simp only [capa2Go, hst] at hn ⊢
      have hle := capa2Go_cnt_le ks toks sid rest ctx1
      have hb := capa2Step_mintInv ks toks N hdist hlen sid ent ctx
        (by rw [hst]; exact Nat.le_trans hle hn) hinv
      rw [hst] at hb
      exact ih ctx1 hn hb

set_option maxHeartbeats 1600000 in
lemma capa3Go_mintInv (ks : KS) (toks : Nat → Text) (N : Nat)
    (hdist : ∀ a b, a < N → b < N → toks a = toks b → a = b)
    (hlen : ∀ n, n < N → (toks n).length = 8) (sid : Text) :
    ∀ dets (ctx : Ctx),
      (capa3Go ks toks sid dets ctx).2.cnt ≤ N →
      MintInv ks toks sid ctx.cache ctx.cnt →
      MintInv ks toks sid (capa3Go ks toks sid dets ctx).2.cache
        (capa3Go ks toks sid dets ctx).2.cnt := by
  intro dets
  induction dets with
  | nil => intro ctx _ hinv; exact hinv
  | cons nombre rest ih =>
    intro ctx hn hinv
    rcases hst : capa3Step ks toks sid nombre ctx with ⟨e, ctx1⟩
    cases e with
    | some err =>
      simp only [capa3Go, hst] at hn ⊢
      have hb := capa3Step_mintInv ks toks N hdist hlen sid nombre ctx
        (by rw [hst]; exact hn) hinv
      rw [hst] at hb
      exact hb
    | none =>
      simp only [capa3Go, hst] at hn ⊢
      have hle := capa3Go_cnt_le ks toks sid rest ctx1
      have hb := capa3Step_mintInv ks toks N hdist hlen sid nombre ctx
        (by rw [hst]; exact Nat.le_trans hle hn) hinv
      rw [hst] at hb
      exact ih ctx1 hn hb

set_option maxHeartbeats 1600000 in
/-- The mint invariant holds of the state a `pseudonymize_text` call leaves
behind, provided the token stream is injective with 8-character draws up to
the final draw count. -/
lemma pseudonymizeText_mintInv (ks : KS) (nlp : Text → List EntSp)
    (toks : Nat → Text) (N : Nat)
    (hdist : ∀ a b, a < N → b < N → toks a = toks b → a = b)
    (hlen : ∀ n, n < N → (toks n).length = 8)
    (text sid : Text) (c0 : Cache) (n0 : Nat)
    (hn : (pseudonymizeText ks nlp toks text sid c0 n0).2.cnt ≤ N)
    (hinv : MintInv ks toks sid c0 n0) :
    MintInv ks toks sid (pseudonymizeText ks nlp toks text sid c0 n0).2.cache
      (pseudonymizeText ks nlp toks text sid c0 n0).2.cnt := by
  unfold pseudonymizeText at hn ⊢
  rcases h1 : capa1Go ks toks sid (capa1Dets text) ⟨text, [], [], initStats, c0, n0⟩
    with ⟨e1, ctx1⟩
  rw [h1] at hn
  cases e1 with
  | some err =>
    simp only [seqE] at hn ⊢
    have hb := capa1Go_mintInv ks toks N hdist hlen sid (capa1Dets text)
      ⟨text, [], [], initStats, c0, n0⟩ (capa1Dets_dts text) (by rw [h1]; exact hn) hinv
    rw [h1] at hb
    exact hb
  | none =>
    simp only [seqE] at hn ⊢
    rcases h2 : capa15Go ks toks sid (headerDets text) ctx1 with ⟨e2, ctx2⟩
    rw [h2] at hn
    have hle2 : ctx1.cnt ≤ ctx2.cnt := by
      have := capa15Go_cnt_le ks toks sid (headerDets text) ctx1
      rw [h2] at this
      exact this
    cases e2 with
    | some err =>
      simp only [seqE] at hn ⊢
      have hb1 := capa1Go_mintInv ks toks N hdist hlen sid (capa1Dets text)
        ⟨text, [], [], initStats, c0, n0⟩ (capa1Dets_dts text)
        (by rw [h1]; exact Nat.le_trans hle2 hn) hinv
      rw [h1] at hb1
      have hb2 := capa15Go_mintInv ks toks N hdist hlen sid (headerDets text) ctx1
        (headerDets_dts text) (by rw [h2]; exact hn) hb1
      rw [h2] at hb2
      exact hb2
    | none =>
      simp only [seqE] at hn ⊢
      rcases h3 : capa2Go ks toks sid (detectarEntidadesSpacy nlp text) ctx2 with ⟨e3, ctx3⟩
      rw [h3] at hn
      have hle3 : ctx2.cnt ≤ ctx3.cnt := by
        have := capa2Go_cnt_le ks toks sid (detectarEntidadesSpacy nlp text) ctx2
        rw [h3] at this
        exact this
      cases e3 with
      | some err =>
        simp only [seqE] at hn ⊢
        have hb1 := capa1Go_mintInv ks toks N hdist hlen sid (capa1Dets text)
          ⟨text, [], [], initStats, c0, n0⟩ (capa1Dets_dts text)
          (by rw [h1]; exact Nat.le_trans (Nat.le_trans hle2 hle3) hn) hinv
        rw [h1] at hb1
        have hb2 := capa15Go_mintInv ks toks N hdist hlen sid (headerDets text) ctx1
          (headerDets_dts text) (by rw [h2]; exact Nat.le_trans hle3 hn) hb1
        rw [h2] at hb2
        have hb3 := capa2Go_mintInv ks toks N hdist hlen sid
          (detectarEntidadesSpacy nlp text) ctx2 (by rw [h3]; exact hn) hb2
        rw [h3] at hb3
        exact hb3
      | none =>
        simp only [seqE] at hn ⊢
        rcases h4 : capa3Go ks toks sid (firmantesDets text) ctx3 with ⟨e4, ctx4⟩
        rw [h4] at hn
        have hle4 : ctx3.cnt ≤ ctx4.cnt := by
          have := capa3Go_cnt_le ks toks sid (firmantesDets text) ctx3
          rw [h4] at this
          exact this
        have hn4 : ctx4.cnt ≤ N := by
          cases e4 with
          | some err => exact hn
          | none => exact hn
        have hb1 := capa1Go_mintInv ks toks N hdist hlen sid (capa1Dets text)
          ⟨text, [], [], initStats, c0, n0⟩ (capa1Dets_dts text)
          (by rw [h1]; exact Nat.le_trans (Nat.le_trans hle2 (Nat.le_trans hle3 hle4)) hn4) hinv
        rw [h1] at hb1
        have hb2 := capa15Go_mintInv ks toks N hdist hlen sid (headerDets text) ctx1
          (headerDets_dts text) (by rw [h2]; exact Nat.le_trans (Nat.le_trans hle3 hle4) hn4) hb1
        rw [h2] at hb2
        have hb3 := capa2Go_mintInv ks toks N hdist hlen sid
          (detectarEntidadesSpacy nlp text) ctx2
          (by rw [h3]; exact Nat.le_trans hle4 hn4) hb2
        rw [h3] at hb3
        have hb4 := capa3Go_mintInv ks toks N hdist hlen sid (firmantesDets text) ctx3
          (by rw [h4]; exact hn4) hb3
        rw [h4] at hb4
        cases e4 with
        | some err => simp only [seqE]; exact hb4
        | none => simp only [seqE]; exact hb4

/-! ### Depseudonymization of a single minted token -/

lemma isUpperAZ_word {c : Char} (h : isUpperAZ c = true) : isWordChar c = true := by
  simp only [isUpperAZ] at h
  simp [isWordChar, Char.isAlpha, h]

lemma takeWhile_upper_append (pfx hx : List Char)
    (hup : ∀ c ∈ pfx, isUpperAZ c = true) :
    (pfx ++ '_' :: hx).takeWhile isUpperAZ = pfx := by
  induction pfx with
  | nil =>
    simp only [List.nil_append, List.takeWhile]
    simp only [show isUpperAZ '_' = false from by decide]
  | cons x xs ih =>
    have hx1 : isUpperAZ x = true := hup x (List.mem_cons_self x xs)
    simp only [List.cons_append, List.takeWhile, hx1, List.append_eq]
    rw [ih (fun c hc => hup c (List.mem_cons_of_mem x hc))]

lemma scanWithGo_nil (m : Option Char → Text → Option Nat) (k : Nat)
    (prev : Option Char) : scanWithGo m k prev [] = [] := by
  cases k with
  | zero => rfl
  | succ k => rfl

lemma matchTokAt_mint (pfx hx : List Char)
    (hpfx : pfx ≠ []) (hup : ∀ c ∈ pfx, isUpperAZ c = true)
    (hlen : hx.length = 8) (hhex : hx.all isHexUp = true) :
    matchTokAt none (pfx ++ '_' :: hx) = some (pfx.length + 9) := by
  obtain ⟨a, pfx', rfl⟩ : ∃ a t, pfx = a :: t := by
    cases pfx with
    | nil => exact absurd rfl hpfx
    | cons a t => exact ⟨a, t, rfl⟩
  have hhead : (((a :: pfx') ++ '_' :: hx)).head? = some a := rfl
  have hbd : isBoundary none (some a) = true := by
    have hw := isUpperAZ_word (hup a (List.mem_cons_self a pfx'))
    simp [isBoundary, hw]
  have htw : ((a :: pfx') ++ '_' :: hx).takeWhile isUpperAZ = a :: pfx' :=
    takeWhile_upper_append (a :: pfx') hx hup
  have hdrop : ((a :: pfx') ++ '_' :: hx).drop (a :: pfx').length = '_' :: hx :=
    List.drop_left (a :: pfx') ('_' :: hx)
  have htake : hx.take 8 = hx := List.take_of_length_le (by rw [hlen])
  have hdrop8 : hx.drop 8 = [] := by rw [← hlen]; exact List.drop_length hx
  have ha : isUpperAZ a = true := hup a (List.mem_cons_self a pfx')
  have hall : ∀ x ∈ hx, isHexUp x = true := by
    intro x hxm
    exact List.all_eq_true.mp hhex x hxm
  have hget : hx[8]? = none := List.getElem?_eq_none (by rw [hlen])
  simp only [List.cons_append] at htw hdrop
  simp [matchTokAt, hhead, hbd, htw, hdrop, htake, hdrop8, hlen, hget, ha, hall]
  exact hall

lemma scanTokens_single (pfx hx : List Char)
    (hpfx : pfx ≠ []) (hup : ∀ c ∈ pfx, isUpperAZ c = true)
    (hlen : hx.length = 8) (hhex : hx.all isHexUp = true) :
    scanTokens (pfx ++ '_' :: hx) = [pfx ++ '_' :: hx] := by
  obtain ⟨a, pfx', rfl⟩ : ∃ a t, pfx = a :: t := by
    cases pfx with
    | nil => exact absurd rfl hpfx
    | cons a t => exact ⟨a, t, rfl⟩
  have hm := matchTokAt_mint (a :: pfx') hx hpfx hup hlen hhex
  have hn : (a :: pfx').length + 9 = (a :: (pfx' ++ '_' :: hx)).length := by
    simp [hlen]
  unfold scanTokens scanWith
  simp only [List.cons_append] at hm ⊢
  simp only [scanWithGo, hm]
  rw [hn, List.take_length, List.drop_length, scanWithGo_nil]

lemma isPrefixOf_self_triv : ∀ (l : List Char), l.isPrefixOf l = true := by
  intro l
  induction l with
  | nil => rfl
  | cons c rest ih => simp [List.isPrefixOf, ih]

lemma replaceAllGo_nil (pat rep : Text) (k : Nat) :
    replaceAllGo pat rep k [] = [] := by
  cases k with
  | zero => rfl
  | succ k => rfl

/-- `str.replace` of the whole string by `rep` gives `rep`. -/
lemma replaceAll_self (pat rep : Text) (h : pat ≠ []) :
    replaceAll pat rep pat = rep := by
  cases pat with
  | nil => exact absurd rfl h
  | cons c rest =>
    unfold replaceAll
    simp only [List.length_cons, replaceAllGo]
    rw [if_pos (isPrefixOf_self_triv (c :: rest))]
    rw [show List.drop (rest.length + 1) (c :: rest) = [] from by
      rw [show rest.length + 1 = (c :: rest).length from (List.length_cons c rest).symm]
      exact List.drop_length _]
    rw [replaceAllGo_nil, List.append_nil]

lemma pfxs_upper :
    ∀ pfx ∈ PFXS, pfx ≠ [] ∧ ∀ c ∈ pfx, isUpperAZ c = true := by
  decide


/-! ### Concrete collaborators used to exercise the engine -/

/-- A reversible key service: encryption tags the value, decryption strips
the tag. -/
def ksId : KS where
  enc := fun v => Except.ok ('E' :: '|' :: v)
  dec := fun c =>
    match c with
    | 'E' :: '|' :: rest => Except.ok rest
    | _ => Except.error (("bad").toList)

/-- A key service whose encrypt fails on one chosen value. -/
def ksFail : KS where
  enc := fun v =>
    if v == ("4444444444").toList then Except.error (("enc fail").toList)
    else Except.ok ('E' :: '|' :: v)
  dec := fun c =>
    match c with
    | 'E' :: '|' :: rest => Except.ok rest
    | _ => Except.error (("bad").toList)

/-- A pairwise-distinct stream of 8-hex-digit draws. -/
def toks0 : Nat → Text := fun n =>
  if n == 0 then ("00000000").toList
  else if n == 1 then ("00000001").toList
  else ("0000000F").toList

/-- A colliding random source: every draw returns the same digits. -/
def toksConst : Nat → Text := fun _ => ("AAAAAAAA").toList

/-- A spaCy model that finds nothing. -/
def nlpNone : Text → List EntSp := fun _ => []

/-- A spaCy oracle recognising one person in one normalised input. -/
def nlpSalazar : Text → List EntSp := fun s =>
  if s == ("Salazar Verduga tramita").toList then
    [⟨("Salazar Verduga").toList, ("PER").toList⟩]
  else []

/-- The depseudonymization loop skips this token: no reverse binding, or the
decryption of its reverse binding fails. -/
def tokenSkipped (ks : KS) (sid : Text) (cache : Cache) (tok : Text) : Bool :=
  match cacheGet cache (revKey sid tok) with
  | none => true
  | some ev => match ks.dec ev with | .ok _ => false | .error _ => true

lemma toks0_len (n : Nat) : (toks0 n).length = 8 := by
  unfold toks0
  split
  · decide
  · split
    · decide
    · decide

lemma toks0_hex (n : Nat) : (toks0 n).all isHexUp = true := by
  unfold toks0
  split
  · decide
  · split
    · decide
    · decide

lemma cacheGet_mapSet_self (m : List (Text × Text)) (k v : Text) :
    cacheGet (mapSet m k v) k = some v := by
  induction m with
  | nil => simp [mapSet, cacheGet]
  | cons kv rest ih =>
    rcases kv with ⟨k2, v2⟩
    simp only [mapSet]
    by_cases h : (k2 == k) = true
    · rw [if_pos h]
      simp [cacheGet]
    · rw [if_neg h]
      simp only [cacheGet]
      rw [if_neg h]
      exact ih

lemma depFold_id (ks : KS) (sid : Text) (cache : Cache) :
    ∀ (l : List Text) (acc : Text),
      (∀ tok ∈ l, tokenSkipped ks sid cache tok = true) →
      l.foldl
        (fun acc tok =>
          match cacheGet cache (revKey sid tok) with
          | none => acc
          | some encVal =>
            match ks.dec encVal with
            | .ok v => replaceAll tok v acc
            | .error _ => acc) acc = acc := by
  intro l
  induction l with
  | nil => intro acc _; rfl
  | cons tok rest ih =>
    intro acc h
    have ht := h tok (List.mem_cons_self tok rest)
    unfold tokenSkipped at ht
    simp only [List.foldl_cons]
    cases hc : cacheGet cache (revKey sid tok) with
    | none =>
      exact ih acc (fun t h2 => h t (List.mem_cons_of_mem tok h2))
    | some ev =>
      rw [hc] at ht
      dsimp only at ht ⊢
      cases hdec : ks.dec ev with
      | ok v =>
        rw [hdec] at ht
        exact Bool.noConfusion ht
      | error e =>
        exact ih acc (fun t h2 => h t (List.mem_cons_of_mem tok h2))

/-! ## The claims -/

/-- C1: the spec promises that the output of `pseudonymize` contains zero
occurrences of any real value bound during the call.  The header layer binds
the captured value (and writes both Redis entries) before attempting the
replacement, and when `buscar_y_reemplazar_variaciones` replaces nothing the
value stays in the returned text while its binding persists — here the
captured direction `&CALLEFALSA123` is bound to `DIRECCION_00000000`, yet the
returned text still contains it (and the mapping is even empty).  The claim
fails on the code as written. -/
theorem c1_bound_header_value_leaks :
    (pseudonymizeText ksId nlpNone toks0
      (("Direccion: &CALLEFALSA123 Ciudad: QUITO").toList) (("S").toList) [] 0).1 = none ∧
    cacheGet (pseudonymizeText ksId nlpNone toks0
      (("Direccion: &CALLEFALSA123 Ciudad: QUITO").toList) (("S").toList) [] 0).2.cache
      (fwdKey (("S").toList) (("nombre_encabezado_direccion").toList)
        (("&CALLEFALSA123").toList)) = some (("DIRECCION_00000000").toList) ∧
    containsSub (("&CALLEFALSA123").toList)
      (pseudonymizeText ksId nlpNone toks0
        (("Direccion: &CALLEFALSA123 Ciudad: QUITO").toList) (("S").toList) [] 0).2.ptext
      = true ∧
    (pseudonymizeText ksId nlpNone toks0
      (("Direccion: &CALLEFALSA123 Ciudad: QUITO").toList) (("S").toList) [] 0).2.mapping
      = [] := by
  decide

/-- C2 (amended): the Consent Gate answers 403 (with the step list and the
LOPDP articles) exactly when `confirmado` is false; when `confirmado` is true
but `session_id` is absent or empty it answers 400 `SESSION_ID REQUERIDO` —
not 403 as the spec claims — and it continues exactly when both are given. -/
theorem c2_consent_gate_amended (r : ProcesarRequest) :
    (consentGate r = GateResult.rechazo 403
        (("CONFIRMACIÓN REQUERIDA - CUMPLIMIENTO LOPDP").toList) pasosRequeridos
        (("LOPDP Ecuador Arts. 8, 10.e, 33, 37, 68").toList)
      ↔ r.confirmado = false) ∧
    (consentGate r = GateResult.rechazo 400 (("SESSION_ID REQUERIDO").toList) [] []
      ↔ r.confirmado = true ∧ sessionFalsy r.session_id = true) ∧
    (consentGate r = GateResult.continuar
      ↔ r.confirmado = true ∧ sessionFalsy r.session_id = false) := by
  obtain ⟨ar, fr, so, cf⟩ := r
  cases cf with
  | false => simp [consentGate]
  | true =>
    cases hso : sessionFalsy so with
    | true => simp [consentGate, hso]
    | false => simp [consentGate, hso]

theorem c2_consent_gate_amended_witness :
    consentGate ⟨[], false, some (("abc123").toList), true⟩ = GateResult.continuar :=
  ((c2_consent_gate_amended ⟨[], false, some (("abc123").toList), true⟩).2.2).mpr
    ⟨rfl, by decide⟩

/-- A request with `confirmado = true` and no `session_id` is rejected with
HTTP 400, not with HTTP 403 as the spec states. -/
theorem c2_confirmed_without_session_counterexample :
    consentGate ⟨[], false, none, true⟩ =
      GateResult.rechazo 400 (("SESSION_ID REQUERIDO").toList) [] [] ∧
    (400 : Nat) ≠ 403 := by
  decide

/-- C3 (amended): the full-text round trip fails (see the counterexample:
name variations are replaced by one token which depseudonymizes to the
canonical form only), but every binding round-trips at token level: if a call
started on an empty session cache leaves a forward binding `dt:v ↦ p`, and
the uuid draws it consumed are pairwise distinct 8-hex-character strings, and
decryption inverts encryption, then depseudonymizing the bare token `p` in
the same session returns exactly `v`. -/
theorem c3_token_round_trip (ks : KS) (nlp : Text → List EntSp)
    (toks : Nat → Text) (text sid dt v p : Text)
    (hdec : ∀ w ev, ks.enc w = Except.ok ev → ks.dec ev = Except.ok w)
    (hdist : ∀ a b, a < (pseudonymizeText ks nlp toks text sid [] 0).2.cnt →
      b < (pseudonymizeText ks nlp toks text sid [] 0).2.cnt →
      toks a = toks b → a = b)
    (hlen : ∀ n, n < (pseudonymizeText ks nlp toks text sid [] 0).2.cnt →
      (toks n).length = 8)
    (hhex : ∀ n, n < (pseudonymizeText ks nlp toks text sid [] 0).2.cnt →
      (toks n).all isHexUp = true)
    (hdt : dt ∈ DTS)
    (hbind : cacheGet (pseudonymizeText ks nlp toks text sid [] 0).2.cache
      (fwdKey sid dt v) = some p) :
    depseudonymizeText ks sid p
      (pseudonymizeText ks nlp toks text sid [] 0).2.cache = v := by
  have hinv0 : MintInv ks toks sid [] 0 := by
    intro dt2 v2 p2 _ hget
    simp [cacheGet] at hget
  have hminv := pseudonymizeText_mintInv ks nlp toks
    (pseudonymizeText ks nlp toks text sid [] 0).2.cnt hdist hlen text sid [] 0
    (Nat.le_refl _) hinv0
  obtain ⟨pfx, n, ev, hm, hlt, hpeq, henc, hrev⟩ := hminv dt v p hdt hbind
  obtain ⟨hne, hup⟩ := pfxs_upper pfx hm
  subst hpeq
  have hscan := scanTokens_single pfx (toks n) hne hup (hlen n hlt) (hhex n hlt)
  unfold depseudonymizeText
  rw [hscan]
  simp only [List.foldl_cons, List.foldl_nil]
  rw [hrev]
  dsimp only
  rw [hdec v ev henc]
  dsimp only
  refine replaceAll_self _ v ?_
  cases pfx with
  | nil => exact absurd rfl hne
  | cons a t => simp

theorem c3_token_round_trip_witness :
    cacheGet (pseudonymizeText ksId nlpNone toks0 (("1234567891").toList)
        (("S").toList) [] 0).2.cache
      (fwdKey (("S").toList) (("cedula").toList) (("1234567891").toList)) =
      some (("CEDULA_00000000").toList) ∧
    depseudonymizeText ksId (("S").toList) (("CEDULA_00000000").toList)
      (pseudonymizeText ksId nlpNone toks0 (("1234567891").toList)
        (("S").toList) [] 0).2.cache = (("1234567891").toList) :=
  ⟨by decide,
   c3_token_round_trip ksId nlpNone toks0 (("1234567891").toList) (("S").toList)
     (("cedula").toList) (("1234567891").toList) (("CEDULA_00000000").toList)
     (by
       intro w ev h
       injection h with h1
       rw [← h1]
       rfl)
     (by
       intro a b ha hb _
       have hc : (pseudonymizeText ksId nlpNone toks0 (("1234567891").toList)
           (("S").toList) [] 0).2.cnt = 1 := by decide
       rw [hc] at ha hb
       omega)
     (fun n _ => toks0_len n)
     (fun n _ => toks0_hex n)
     (by decide)
     (by decide)⟩

/-- The whole-text round trip of the spec fails on a header whose name occurs
again in inverted word order: both occurrences collapse to one token, and
depseudonymization expands both to the canonical capture, changing the word
order (not merely whitespace). -/
theorem c3_round_trip_counterexample :
    depseudonymizeText ksId (("S").toList)
      (pseudonymizeText ksId nlpNone toks0
        (("PRESTADOR O CONCESIONARIO: EMPRESA GLOBALTEL RUC 999 GLOBALTEL EMPRESA").toList)
        (("S").toList) [] 0).2.ptext
      (pseudonymizeText ksId nlpNone toks0
        (("PRESTADOR O CONCESIONARIO: EMPRESA GLOBALTEL RUC 999 GLOBALTEL EMPRESA").toList)
        (("S").toList) [] 0).2.cache ≠
      (("PRESTADOR O CONCESIONARIO: EMPRESA GLOBALTEL RUC 999 GLOBALTEL EMPRESA").toList) ∧
    normalizarEspacios (depseudonymizeText ksId (("S").toList)
      (pseudonymizeText ksId nlpNone toks0
        (("PRESTADOR O CONCESIONARIO: EMPRESA GLOBALTEL RUC 999 GLOBALTEL EMPRESA").toList)
        (("S").toList) [] 0).2.ptext
      (pseudonymizeText ksId nlpNone toks0
        (("PRESTADOR O CONCESIONARIO: EMPRESA GLOBALTEL RUC 999 GLOBALTEL EMPRESA").toList)
        (("S").toList) [] 0).2.cache) ≠
      normalizarEspacios
        (("PRESTADOR O CONCESIONARIO: EMPRESA GLOBALTEL RUC 999 GLOBALTEL EMPRESA").toList) := by
  decide

/-- C4: calling the engine a second time on the same text and session returns
byte-identical text, pseudonyms and mapping, leaves the session cache exactly
as it was (no new bindings), consumes no uuid draws, and mints nothing (all
per-layer detection counters of the second call stay at their initial
values) — whatever key service or draw stream the second call runs with. -/
theorem c4_idempotent_replay (ks ks2 : KS) (nlp : Text → List EntSp)
    (toks toks2 : Nat → Text) (text sid : Text) (c0 : Cache) (n0 : Nat)
    (ctxF : Ctx) (m : Nat)
    (h : pseudonymizeText ks nlp toks text sid c0 n0 = (none, ctxF)) :
    ∃ st', pseudonymizeText ks2 nlp toks2 text sid ctxF.cache m =
      (none, ⟨ctxF.ptext, ctxF.pv, ctxF.mapping, st', ctxF.cache, m⟩) ∧
      SameMints st' initStats :=
  pseudonymizeText_replay ks ks2 nlp toks toks2 text sid c0 n0 ctxF m h

theorem c4_idempotent_replay_witness :
    ∃ st', pseudonymizeText ksId nlpNone toks0 (("1234567891").toList) (("S").toList)
        (pseudonymizeText ksId nlpNone toks0 (("1234567891").toList)
          (("S").toList) [] 0).2.cache 5 =
      (none,
        ⟨(pseudonymizeText ksId nlpNone toks0 (("1234567891").toList)
            (("S").toList) [] 0).2.ptext,
         (pseudonymizeText ksId nlpNone toks0 (("1234567891").toList)
            (("S").toList) [] 0).2.pv,
         (pseudonymizeText ksId nlpNone toks0 (("1234567891").toList)
            (("S").toList) [] 0).2.mapping,
         st',
         (pseudonymizeText ksId nlpNone toks0 (("1234567891").toList)
            (("S").toList) [] 0).2.cache, 5⟩) ∧
      SameMints st' initStats :=
  c4_idempotent_replay ksId ksId nlpNone toks0 toks0 (("1234567891").toList)
    (("S").toList) [] 0
    (pseudonymizeText ksId nlpNone toks0 (("1234567891").toList)
      (("S").toList) [] 0).2 5 (by decide)

/-- C5 (amended): a key-service failure aborts the remaining layers and
surfaces the error, but nothing is rolled back: every forward binding present
in the session cache when the failure strikes — whether written by this very
call before the failing value or by an earlier call — is still committed
afterwards.  The spec's "leaves no partial bindings" is false (see the
counterexample). -/
theorem c5_bindings_survive_failure (ks : KS) (nlp : Text → List EntSp)
    (toks : Nat → Text) (text sid : Text) (c0 : Cache) (n0 : Nat)
    (dt v p : Text) (hdt : dt ∈ DTS)
    (hget : cacheGet c0 (fwdKey sid dt v) = some p) :
    cacheGet (pseudonymizeText ks nlp toks text sid c0 n0).2.cache
      (fwdKey sid dt v) = some p :=
  (pseudonymizeText_stableFwd ks nlp toks text sid c0 n0) dt v p hdt hget

theorem c5_bindings_survive_failure_witness :
    (pseudonymizeText ksFail nlpNone toks0 (("4444444444").toList) (("S").toList)
      [(fwdKey (("S").toList) (("cedula").toList) (("1234567891").toList),
        ("CEDULA_00000000").toList)] 5).1 = some (("enc fail").toList) ∧
    cacheGet (pseudonymizeText ksFail nlpNone toks0 (("4444444444").toList)
        (("S").toList)
        [(fwdKey (("S").toList) (("cedula").toList) (("1234567891").toList),
          ("CEDULA_00000000").toList)] 5).2.cache
      (fwdKey (("S").toList) (("cedula").toList) (("1234567891").toList)) =
      some (("CEDULA_00000000").toList) :=
  ⟨by decide,
   c5_bindings_survive_failure ksFail nlpNone toks0 (("4444444444").toList)
     (("S").toList) _ 5 (("cedula").toList) (("1234567891").toList)
     (("CEDULA_00000000").toList) (by decide) (by decide)⟩

/-- An encrypt failure on the second cedula aborts the call with the error,
yet the binding minted for the first cedula stays committed in the session
cache: the operation does partially commit. -/
theorem c5_partial_bindings_counterexample :
    (pseudonymizeText ksFail nlpNone toks0 (("3333333333 4444444444").toList)
      (("S").toList) [] 0).1 = some (("enc fail").toList) ∧
    cacheGet (pseudonymizeText ksFail nlpNone toks0
        (("3333333333 4444444444").toList) (("S").toList) [] 0).2.cache
      (fwdKey (("S").toList) (("cedula").toList) (("3333333333").toList)) =
      some (("CEDULA_00000000").toList) := by
  decide

/-- C6 (amended): `generate_pseudonym` performs no collision check and never
re-draws.  Uniqueness of tokens within a session therefore holds only by
assumption on the random source: if the draws consumed by a call from an
empty session cache are pairwise distinct and encryption is injective, then
two forward bindings that share a token bind the same value.  With a
colliding source the guarantee is void (see the counterexample). -/
theorem c6_token_uniqueness_amended (ks : KS) (nlp : Text → List EntSp)
    (toks : Nat → Text) (text sid : Text)
    (hencinj : ∀ w1 w2 ev, ks.enc w1 = Except.ok ev → ks.enc w2 = Except.ok ev →
      w1 = w2)
    (hdist : ∀ a b, a < (pseudonymizeText ks nlp toks text sid [] 0).2.cnt →
      b < (pseudonymizeText ks nlp toks text sid [] 0).2.cnt →
      toks a = toks b → a = b)
    (hlen : ∀ n, n < (pseudonymizeText ks nlp toks text sid [] 0).2.cnt →
      (toks n).length = 8)
    (dt1 v1 dt2 v2 p : Text) (hdt1 : dt1 ∈ DTS) (hdt2 : dt2 ∈ DTS)
    (hb1 : cacheGet (pseudonymizeText ks nlp toks text sid [] 0).2.cache
      (fwdKey sid dt1 v1) = some p)
    (hb2 : cacheGet (pseudonymizeText ks nlp toks text sid [] 0).2.cache
      (fwdKey sid dt2 v2) = some p) :
    v1 = v2 := by
  have hinv0 : MintInv ks toks sid [] 0 := by
    intro dt3 v3 p3 _ hget
    simp [cacheGet] at hget
  have hminv := pseudonymizeText_mintInv ks nlp toks
    (pseudonymizeText ks nlp toks text sid [] 0).2.cnt hdist hlen text sid [] 0
    (Nat.le_refl _) hinv0
  obtain ⟨pfx1, n1, ev1, _, _, _, henc1, hrev1⟩ := hminv dt1 v1 p hdt1 hb1
  obtain ⟨pfx2, n2, ev2, _, _, _, henc2, hrev2⟩ := hminv dt2 v2 p hdt2 hb2
  have hev : ev1 = ev2 := Option.some.inj (hrev1.symm.trans hrev2)
  rw [hev] at henc1
  exact hencinj v1 v2 ev2 henc1 henc2

theorem c6_token_uniqueness_amended_witness :
    cacheGet (pseudonymizeText ksId nlpNone toks0 (("1234567891").toList)
        (("S").toList) [] 0).2.cache
      (fwdKey (("S").toList) (("cedula").toList) (("1234567891").toList)) =
      some (("CEDULA_00000000").toList) ∧
    (("1234567891").toList : Text) = (("1234567891").toList) :=
  ⟨by decide,
   c6_token_uniqueness_amended ksId nlpNone toks0 (("1234567891").toList)
     (("S").toList)
     (by
       intro w1 w2 ev h1 h2
       injection h1 with h1e
       injection h2 with h2e
       rw [← h1e] at h2e
       injection h2e with _ h3
       injection h3 with _ h4
       exact h4.symm)
     (by
       intro a b ha hb _
       have hc : (pseudonymizeText ksId nlpNone toks0 (("1234567891").toList)
         (("S").toList) [] 0).2.cnt = 1 := by decide
       rw [hc] at ha hb
       omega)
     (fun n _ => toks0_len n)
     (("cedula").toList) (("1234567891").toList)
     (("cedula").toList) (("1234567891").toList)
     (("CEDULA_00000000").toList)
     (by decide) (by decide) (by decide) (by decide)⟩

/-- With a colliding random source the two distinct cedulas of one call are
bound to the same token (and the reverse binding is silently overwritten):
no re-draw happens. -/
theorem c6_shared_token_counterexample :
    cacheGet (pseudonymizeText ksId nlpNone toksConst
        (("3333333333 4444444444").toList) (("S").toList) [] 0).2.cache
      (fwdKey (("S").toList) (("cedula").toList) (("3333333333").toList)) =
      some (("CEDULA_AAAAAAAA").toList) ∧
    cacheGet (pseudonymizeText ksId nlpNone toksConst
        (("3333333333 4444444444").toList) (("S").toList) [] 0).2.cache
      (fwdKey (("S").toList) (("cedula").toList) (("4444444444").toList)) =
      some (("CEDULA_AAAAAAAA").toList) ∧
    (("3333333333").toList : Text) ≠ (("4444444444").toList) := by
  decide

/-- C7 (amended): no rejoin pre-pass exists.  The patterns are applied to the
text exactly as received: on `"1724733066 001"` the ten digits alone match
(as a cedula, not a RUC), the trailing `001` survives, and no binding for the
thirteen rejoined digits is created. -/
theorem c7_no_rejoin_prepass :
    (pseudonymizeText ksId nlpNone toks0 (("1724733066 001").toList)
      (("S").toList) [] 0).2.ptext = (("CEDULA_00000000 001").toList) ∧
    (pseudonymizeText ksId nlpNone toks0 (("1724733066 001").toList)
      (("S").toList) [] 0).2.mapping =
      [((("CEDULA_00000000").toList), (("1724733066").toList))] ∧
    cacheGet (pseudonymizeText ksId nlpNone toks0 (("1724733066 001").toList)
        (("S").toList) [] 0).2.cache
      (fwdKey (("S").toList) (("ruc").toList) (("1724733066001").toList)) = none := by
  decide

/-- The spec's own example input: the output keeps the trailing ` 001` and
carries no `RUC_` token at all. -/
theorem c7_ocr_split_counterexample :
    containsSub ((" 001").toList)
      (pseudonymizeText ksId nlpNone toks0 (("1724733066 001").toList)
        (("S").toList) [] 0).2.ptext = true ∧
    containsSub (("RUC_").toList)
      (pseudonymizeText ksId nlpNone toks0 (("1724733066 001").toList)
        (("S").toList) [] 0).2.ptext = false := by
  decide

/-- C8: no endpoint consults `MAX_TEXT_LENGTH`: a text over the cap is
processed like any other, answering 200 on success or 500 on an internal
failure — never an `InputTooLarge` rejection. -/
theorem c8_oversize_not_rejected (ks : KS) (nlp : Text → List EntSp)
    (toks : Nat → Text) (text sid : Text) (c0 : Cache) (n0 : Nat)
    (hbig : MAX_TEXT_LENGTH < text.length) :
    (pseudonymizeEndpoint ks nlp toks text sid c0 n0).1.status = 200 ∨
    (pseudonymizeEndpoint ks nlp toks text sid c0 n0).1.status = 500 := by
  unfold pseudonymizeEndpoint
  rcases hr : pseudonymizeText ks nlp toks text sid c0 n0 with ⟨e, ctx⟩
  cases e with
  | some err => right; rfl
  | none => left; rfl

theorem c8_oversize_not_rejected_witness :
    MAX_TEXT_LENGTH < (List.replicate 100001 ' ').length ∧
    ((pseudonymizeEndpoint ksId nlpNone toks0 (List.replicate 100001 ' ')
        (("S").toList) [] 0).1.status = 200 ∨
     (pseudonymizeEndpoint ksId nlpNone toks0 (List.replicate 100001 ' ')
        (("S").toList) [] 0).1.status = 500) :=
  ⟨by norm_num [MAX_TEXT_LENGTH],
   c8_oversize_not_rejected ksId nlpNone toks0 (List.replicate 100001 ' ')
     (("S").toList) [] 0 (by norm_num [MAX_TEXT_LENGTH])⟩

/-- C9 (amended): during depseudonymization each scanned token is handled on
its own: a token with no reverse binding, or whose reverse binding fails to
decrypt, contributes nothing and the loop continues — in particular if every
scanned token is unknown or undecryptable the text comes back unchanged.
(Resolved tokens, however, are substituted by a global `str.replace`, which
can also rewrite an unknown token that contains a resolved one — see the
counterexample: unknown tokens are not always left verbatim.) -/
theorem c9_unknown_and_failing_tokens_skipped (ks : KS) (sid text : Text)
    (cache : Cache)
    (h : ∀ tok ∈ scanTokens text, tokenSkipped ks sid cache tok = true) :
    depseudonymizeText ks sid text cache = text := by
  unfold depseudonymizeText
  exact depFold_id ks sid cache (scanTokens text) text h

theorem c9_unknown_and_failing_tokens_skipped_witness :
    scanTokens (("ver CEDULA_AB12CD34 y NOMBRE_00AB12CD.").toList) =
      [("CEDULA_AB12CD34").toList, ("NOMBRE_00AB12CD").toList] ∧
    depseudonymizeText ksId (("S").toList)
      (("ver CEDULA_AB12CD34 y NOMBRE_00AB12CD.").toList)
      [(revKey (("S").toList) (("CEDULA_AB12CD34").toList), ("X").toList)] =
      (("ver CEDULA_AB12CD34 y NOMBRE_00AB12CD.").toList) :=
  ⟨by decide,
   c9_unknown_and_failing_tokens_skipped ksId (("S").toList)
     (("ver CEDULA_AB12CD34 y NOMBRE_00AB12CD.").toList)
     [(revKey (("S").toList) (("CEDULA_AB12CD34").toList), ("X").toList)]
     (by decide)⟩

/-- The unbound token `XCEDULA_AB12CD34` matches the token pattern and has no
reverse binding, yet it is not left verbatim: substituting the bound token
`CEDULA_AB12CD34` is a plain global replace and rewrites its occurrence
inside the unknown token too. -/
theorem c9_unknown_token_rewritten_counterexample :
    depseudonymizeText ksId (("S").toList)
      (("CEDULA_AB12CD34 XCEDULA_AB12CD34").toList)
      [(revKey (("S").toList) (("CEDULA_AB12CD34").toList),
        ('E' :: '|' :: ("1712345678").toList))] =
      (("1712345678 X1712345678").toList) ∧
    cacheGet [(revKey (("S").toList) (("CEDULA_AB12CD34").toList),
        ('E' :: '|' :: ("1712345678").toList))]
      (revKey (("S").toList) (("XCEDULA_AB12CD34").toList)) = none := by
  decide

/-- C10: whenever the regex layer or the NER layer accepts a value (not yet
processed, not excepted, cache miss, encryption succeeds), it writes the
forward and the reverse binding, records the token in the mapping and counts
one replacement — with no condition whatsoever on the subsequent literal
substitution having changed the text; the mapping can therefore hold tokens
that never occur in the returned text (see the witness, where the
substitution changes nothing). -/
theorem c10_unconditional_writes (ks : KS) (toks : Nat → Text) (sid : Text) :
    (∀ (d : Text × Text) (ctx : Ctx) (v p ev : Text), d.1 ∈ DTS →
      v = stripWS d.2 →
      ctx.pv.contains v = false → isException v = false →
      cacheGet ctx.cache (fwdKey sid d.1 v) = none →
      ks.enc v = Except.ok ev →
      p = generatePseudonym toks ctx.cnt (prefixFor d.1) →
      (capa1Step ks toks sid d ctx).1 = none ∧
      cacheGet (capa1Step ks toks sid d ctx).2.cache (fwdKey sid d.1 v) = some p ∧
      cacheGet (capa1Step ks toks sid d ctx).2.cache (revKey sid p) = some ev ∧
      cacheGet (capa1Step ks toks sid d ctx).2.mapping p = some v ∧
      (capa1Step ks toks sid d ctx).2.stats.total_reemplazos =
        ctx.stats.total_reemplazos + 1) ∧
    (∀ (ent : EntSp) (ctx : Ctx) (v p ev : Text),
      v = normalizarEspacios (stripWS ent.texto) →
      ctx.pv.contains v = false → isException v = false →
      cacheGet ctx.cache (fwdKey sid (("nombre_persona").toList) v) = none →
      ks.enc v = Except.ok ev →
      p = generatePseudonym toks ctx.cnt (("NOMBRE").toList) →
      (capa2Step ks toks sid ent ctx).1 = none ∧
      cacheGet (capa2Step ks toks sid ent ctx).2.cache
        (fwdKey sid (("nombre_persona").toList) v) = some p ∧
      cacheGet (capa2Step ks toks sid ent ctx).2.cache (revKey sid p) = some ev ∧
      cacheGet (capa2Step ks toks sid ent ctx).2.mapping p = some v ∧
      (capa2Step ks toks sid ent ctx).2.stats.total_reemplazos =
        ctx.stats.total_reemplazos + 1) := by
  constructor
  · intro d ctx v p ev hdt hv hpv hex2 hmiss henc hp
    subst hv
    subst hp
    simp only [capa1Step]
    rw [if_neg (show ¬(ctx.pv.contains (stripWS d.2) = true) from by
        rw [hpv]; exact Bool.false_ne_true),
      if_neg (show ¬(isException (stripWS d.2) = true) from by
        rw [hex2]; exact Bool.false_ne_true)]
    unfold bindValue
    rw [hmiss, henc]
    dsimp only
    refine ⟨rfl, ?_, ?_, ?_, rfl⟩
    · exact cacheGet_set_self _ _ _
    · rw [cacheGet_set_ne _ _ (fwdKey_ne_revKey sid d.1 _ _ hdt)]
      exact cacheGet_set_self _ _ _
    · exact cacheGet_mapSet_self _ _ _
  · intro ent ctx v p ev hv hpv hex2 hmiss henc hp
    subst hv
    subst hp
    simp only [capa2Step]
    rw [if_neg (show ¬(ctx.pv.contains (normalizarEspacios (stripWS ent.texto)) = true) from by
        rw [hpv]; exact Bool.false_ne_true),
      if_neg (show ¬(isException (normalizarEspacios (stripWS ent.texto)) = true) from by
        rw [hex2]; exact Bool.false_ne_true)]
    unfold bindValue
    rw [hmiss, henc]
    dsimp only
    refine ⟨rfl, ?_, ?_, ?_, rfl⟩
    · exact cacheGet_set_self _ _ _
    · rw [cacheGet_set_ne _ _
        (fwdKey_ne_revKey sid (("nombre_persona").toList) _ _ (by decide))]
      exact cacheGet_set_self _ _ _
    · exact cacheGet_mapSet_self _ _ _

theorem c10_unconditional_writes_witness :
    containsSub (("NOMBRE_00000000").toList)
      (capa2Step ksId toks0 (("S").toList)
        ⟨("Salazar Verduga").toList, ("PER").toList⟩
        ⟨("SALAZAR VERDUGA tramita").toList, [], [], initStats, [], 0⟩).2.ptext =
      false ∧
    ((capa1Step ksId toks0 (("S").toList)
        ((("cedula").toList), (("1712345678").toList))
        ⟨("texto").toList, [], [], initStats, [], 0⟩).1 = none ∧
     cacheGet (capa1Step ksId toks0 (("S").toList)
        ((("cedula").toList), (("1712345678").toList))
        ⟨("texto").toList, [], [], initStats, [], 0⟩).2.cache
       (fwdKey (("S").toList) (("cedula").toList) (("1712345678").toList)) =
       some (("CEDULA_00000000").toList) ∧
     cacheGet (capa1Step ksId toks0 (("S").toList)
        ((("cedula").toList), (("1712345678").toList))
        ⟨("texto").toList, [], [], initStats, [], 0⟩).2.cache
       (revKey (("S").toList) (("CEDULA_00000000").toList)) =
       some ('E' :: '|' :: ("1712345678").toList) ∧
     cacheGet (capa1Step ksId toks0 (("S").toList)
        ((("cedula").toList), (("1712345678").toList))
        ⟨("texto").toList, [], [], initStats, [], 0⟩).2.mapping
       (("CEDULA_00000000").toList) = some (("1712345678").toList) ∧
     (capa1Step ksId toks0 (("S").toList)
        ((("cedula").toList), (("1712345678").toList))
        ⟨("texto").toList, [], [], initStats, [], 0⟩).2.stats.total_reemplazos =
       initStats.total_reemplazos + 1) ∧
    ((capa2Step ksId toks0 (("S").toList)
        ⟨("Salazar Verduga").toList, ("PER").toList⟩
        ⟨("SALAZAR VERDUGA tramita").toList, [], [], initStats, [], 0⟩).1 = none ∧
     cacheGet (capa2Step ksId toks0 (("S").toList)
        ⟨("Salazar Verduga").toList, ("PER").toList⟩
        ⟨("SALAZAR VERDUGA tramita").toList, [], [], initStats, [], 0⟩).2.cache
       (fwdKey (("S").toList) (("nombre_persona").toList)
         (("Salazar Verduga").toList)) = some (("NOMBRE_00000000").toList) ∧
     cacheGet (capa2Step ksId toks0 (("S").toList)
        ⟨("Salazar Verduga").toList, ("PER").toList⟩
        ⟨("SALAZAR VERDUGA tramita").toList, [], [], initStats, [], 0⟩).2.cache
       (revKey (("S").toList) (("NOMBRE_00000000").toList)) =
       some ('E' :: '|' :: ("Salazar Verduga").toList) ∧
     cacheGet (capa2Step ksId toks0 (("S").toList)
        ⟨("Salazar Verduga").toList, ("PER").toList⟩
        ⟨("SALAZAR VERDUGA tramita").toList, [], [], initStats, [], 0⟩).2.mapping
       (("NOMBRE_00000000").toList) = some (("Salazar Verduga").toList) ∧
     (capa2Step ksId toks0 (("S").toList)
        ⟨("Salazar Verduga").toList, ("PER").toList⟩
        ⟨("SALAZAR VERDUGA tramita").toList, [], [],
          initStats, [], 0⟩).2.stats.total_reemplazos =
       initStats.total_reemplazos + 1) :=
  ⟨by decide,
   (c10_unconditional_writes ksId toks0 (("S").toList)).1
     ((("cedula").toList), (("1712345678").toList))
     ⟨("texto").toList, [], [], initStats, [], 0⟩
     (("1712345678").toList) (("CEDULA_00000000").toList)
     ('E' :: '|' :: ("1712345678").toList)
     (by decide) (by decide) (by decide) (by decide) (by decide) rfl (by decide),
   (c10_unconditional_writes ksId toks0 (("S").toList)).2
     ⟨("Salazar Verduga").toList, ("PER").toList⟩
     ⟨("SALAZAR VERDUGA tramita").toList, [], [], initStats, [], 0⟩
     (("Salazar Verduga").toList) (("NOMBRE_00000000").toList)
     ('E' :: '|' :: ("Salazar Verduga").toList)
     (by decide) (by decide) (by decide) (by decide) rfl (by decide)⟩

end PseudoPas
